import Mathlib

/-!
# Verification of the resume-extraction service (`src/main3.py`, `src/app2.py`)

A shallow embedding of the FastAPI backend in `src/main3.py`:

* JSON-shaped Python values are modelled by `PyVal`; Python dicts are
  association lists with unique keys (`dlookup` / `dset` / `eraseKey`
  mirror `d[k]` / `d[k] = v` / `del d[k]`).
* The accuracy scorer `calculate_extraction_accuracy`, the structuring
  post-processing of `process_with_ai`, the `/extract-resume-file/`
  handler and the `/save-full-json/` handler are translated as pure
  functions; external effects (file writes, the model call, the
  text-extraction libraries) enter as explicit parameters describing
  their outcome, exactly at the call boundary the code gives them.
* Exceptions are modelled with `Except`; a raised
  `fastapi.HTTPException(code, detail)` is the value `HttpError.mk code
  detail`, and `strHTTPException` models Python's `str()` of such an
  exception (`"{code}: {detail}"`), which matters because both handlers
  wrap every exception - their own `HTTPException`s included - in
  `HTTPException(500, str(e))`.
* The code-fence stripping of `process_with_ai`
  (`re.sub(r'^```json\s*|\s*```$', '', s, flags=re.MULTILINE)` after
  `.strip()`) is modelled over `List Char` by a fueled scanner
  `reSubFuel`, and JSON validity (the acceptance of `json.loads`) by the
  fueled recogniser `jsonRun`.
-/

/-- Python whitespace for `str.strip()` and the regex class `\s`
(restricted to the ASCII whitespace characters, which are the only ones
relevant to JSON text and code fences). -/
def isPySpace (c : Char) : Bool :=
  c = ' ' || c = '\t' || c = '\n' || c = '\r' || c = '\x0b' || c = '\x0c'

/-- JSON-shaped Python values: the possible results of `json.loads`
(plus `None`, which `safe_get` can produce). -/
inductive PyVal where
  | pynone : PyVal
  | pybool : Bool → PyVal
  | pyint : Int → PyVal
  | pystr : String → PyVal
  | pylist : List PyVal → PyVal
  | pydict : List (String × PyVal) → PyVal

/-- Python truthiness (`bool(v)`) on the modelled values. -/
def truthy : PyVal → Bool
  | .pynone => false
  | .pybool b => b
  | .pyint n => n != 0
  | .pystr s => s != ""
  | .pylist xs => !xs.isEmpty
  | .pydict kvs => !kvs.isEmpty

/-- Dict lookup: `kvs[k]` / `k in kvs` support (first matching key; the
storage and all JSON objects have unique keys, as Python dicts do). -/
def dlookup (kvs : List (String × PyVal)) (k : String) : Option PyVal :=
  match kvs with
  | [] => none
  | (k2, v) :: rest => if k2 = k then some v else dlookup rest k

/-- Dict assignment `kvs[k] = v`: replace the value of an existing key,
otherwise append the new binding. -/
def dset (kvs : List (String × PyVal)) (k : String) (v : PyVal) :
    List (String × PyVal) :=
  match kvs with
  | [] => [(k, v)]
  | (k2, v2) :: rest => if k2 = k then (k, v) :: rest else (k2, v2) :: dset rest k v

/-- Dict deletion `del kvs[k]` (keys are unique, so filtering the key
out is exactly deletion). -/
def eraseKey (kvs : List (String × PyVal)) (k : String) :
    List (String × PyVal) :=
  kvs.filter (fun kv => kv.1 != k)

/-- `safe_get(data, *keys, default)` from `src/main3.py`: walk nested
dicts, returning `default` as soon as a step is not a dict or the key is
missing, and also when the final value is `None`. -/
def safe_get (data : PyVal) (keys : List String) (default : PyVal) : PyVal :=
  match keys with
  | [] => if data matches .pynone then default else data
  | k :: ks =>
    match data with
    | .pydict kvs =>
      match dlookup kvs k with
      | some v => safe_get v ks default
      | none => default
    | _ => default

/-- Python's `a or b`. -/
def pyOr (a b : PyVal) : PyVal := if truthy a then a else b

/-- `str.split('.')` over the characters (keeps empty pieces, exactly
like Python's one-argument split). -/
def splitDotAux (cur : List Char) : List Char → List String
  | [] => [String.mk cur.reverse]
  | c :: cs =>
    if c = '.' then String.mk cur.reverse :: splitDotAux [] cs
    else splitDotAux (c :: cur) cs

/-- `field.split('.')` as used by `calculate_extraction_accuracy`. -/
def pySplitDot (s : String) : List String := splitDotAux [] s.data

/-- `str.split()` with no argument: split on whitespace runs, dropping
empty pieces. -/
def splitWsAux (cur : List Char) : List Char → List String
  | [] => if cur.isEmpty then [] else [String.mk cur.reverse]
  | c :: cs =>
    if isPySpace c then
      if cur.isEmpty then splitWsAux [] cs
      else String.mk cur.reverse :: splitWsAux [] cs
    else splitWsAux (c :: cur) cs

/-- `full_name.split()` as used by the extract handler. -/
def pySplitWs (s : String) : List String := splitWsAux [] s.data

/-- The fixed 10-path checklist of `calculate_extraction_accuracy`. -/
def expectedFields : List String :=
  ["full_name",
   "current_designation",
   "contact_info.email",
   "contact_info.phone",
   "contact_info.linkedin_url",
   "address",
   "skills.primary_skills",
   "skills.secondary_skills",
   "total_experience.years",
   "education"]

/-- Resolution of one checklist path (lines 159-167 of `main3.py`):
one-part paths use `extracted_data.get(p, None)`; two-part paths use
`extracted_data.get(p0, {})` followed by `.get(p1, None)` when the
parent is a dict and `None` otherwise.  An absent value and a stored
JSON `null` are both `PyVal.pynone`, exactly as both are Python `None`
here. -/
def resolveField (data : List (String × PyVal)) (field : String) : PyVal :=
  match pySplitDot field with
  | [k] =>
    match dlookup data k with
    | some v => v
    | none => .pynone
  | [k1, k2] =>
    match (match dlookup data k1 with | some p => p | none => .pydict []) with
    | .pydict kvs =>
      match dlookup kvs k2 with
      | some v => v
      | none => .pynone
    | _ => .pynone
  | _ => .pynone

/-- The emptiness test of lines 170-176: `value is None`, `value == ""`,
`value == []`, `value == {}`, or a list all of whose elements are falsy.
(For values of these JSON shapes Python's `==` against `""`/`[]`/`{}`
only ever succeeds on the same shape, which the match encodes.) -/
def isEmptyVal : PyVal → Bool
  | .pynone => true
  | .pystr s => s = ""
  | .pylist xs => xs.isEmpty || xs.all (fun x => !truthy x)
  | .pydict kvs => kvs.isEmpty
  | _ => false

/-- Python's `round` (banker's rounding, half to even) on an exact
rational. -/
def pyRoundHalfEven (x : ℚ) : ℤ :=
  let f := ⌊x⌋
  let r := x - (f : ℚ)
  if r < 1/2 then f
  else if 1/2 < r then f + 1
  else if Even f then f else f + 1

/-- `round(x, 2)` on an exact rational. -/
def pyRound2 (x : ℚ) : ℚ := (pyRoundHalfEven (x * 100) : ℚ) / 100

/-- The result record of `calculate_extraction_accuracy`. -/
structure AccuracyMetrics where
  filled_fields : Nat
  empty_fields : Nat
  total_fields : Nat
  extraction_rate : ℚ
  field_status : List (String × String)

/-- Whether one checklist field resolves to an empty value. -/
def fieldIsEmpty (data : List (String × PyVal)) (field : String) : Bool :=
  isEmptyVal (resolveField data field)

/-- `calculate_extraction_accuracy` (lines 140-193): walk the fixed
checklist, classify each resolved value, count, and compute
`round(filled / total * 100, 2)`. -/
def calculate_extraction_accuracy (extracted_data : List (String × PyVal)) :
    AccuracyMetrics :=
  let filled_fields :=
    (expectedFields.filter (fun f => !fieldIsEmpty extracted_data f)).length
  let empty_fields :=
    (expectedFields.filter (fun f => fieldIsEmpty extracted_data f)).length
  let total_fields := expectedFields.length
  { filled_fields := filled_fields
    empty_fields := empty_fields
    total_fields := total_fields
    extraction_rate := pyRound2 ((filled_fields : ℚ) / (total_fields : ℚ) * 100)
    field_status :=
      expectedFields.map
        (fun f => (f, if fieldIsEmpty extracted_data f then "empty" else "filled")) }

/-! ## HTTP errors and the exception-wrapping of the two handlers -/

/-- A raised `fastapi.HTTPException(status_code, detail)`. -/
structure HttpError where
  status : Nat
  detail : String

/-- Python's `str()` of an `HTTPException` (starlette renders it as
`"{status_code}: {detail}"`), which is what the catch-all
`except Exception as e: raise HTTPException(..., str(e))` clauses embed. -/
def strHTTPException (status : Nat) (detail : String) : String :=
  toString status ++ ": " ++ detail

/-- Shared in-process storage `extraction_data_storage`: a dict from
extraction id to the structured record. -/
abbrev Storage := List (String × PyVal)

/-- `k in storage`. -/
def hasKey (storage : Storage) (k : String) : Bool :=
  (dlookup storage k).isSome

/-! ## `process_with_ai` post-processing (lines 117-138)

The model call itself (`ollama.chat`), the fence stripping and
`json.loads` are summarised by a parameter of type
`Except String PyVal`: either the message of the exception this part of
the `try` block raised, or the parsed JSON value.  What follows in the
source - the education normalization and the id/date assignment - is
translated literally; any exception is wrapped by the function's own
`except` clause into `RuntimeError(f"AI processing failed: {e}")`. -/

/-- Education normalization plus id/date assignment of
`process_with_ai`.  A non-dict parse result makes the item assignment
`data['extraction_id'] = ...` (or the `data['education']` access) raise
a `TypeError`, which the surrounding `except` also converts into the
`AI processing failed` runtime error; the exact Python message text is
type-dependent and abbreviated here, and no theorem depends on it. -/
def process_with_ai_model (parsed : Except String PyVal)
    (uuid date : String) : Except String PyVal :=
  match parsed with
  | .error e => .error ("AI processing failed: " ++ e)
  | .ok (.pydict kvs) =>
    let kvs1 :=
      match dlookup kvs "education" with
      | some (.pydict e) => dset kvs "education" (.pylist [.pydict e])
      | _ => kvs
    .ok (.pydict (dset (dset kvs1 "extraction_id" (.pystr uuid))
      "processing_date" (.pystr date)))
  | .ok _ => .error ("AI processing failed: TypeError")

/-! ## The flattened response view (lines 228-269) -/

/-- `", ".join(xs)` / `" ".join(xs)` on real strings. -/
def joinWith (sep : String) : List String → String
  | [] => ""
  | [x] => x
  | x :: xs => x ++ sep ++ joinWith sep xs

/-- `sep.join(values)` over Python values: raises `TypeError` when a
value in the sequence is not a string. -/
def pyJoin (sep : String) (xs : List PyVal) : Except String String :=
  if xs.all (fun v => v matches .pystr _) then
    .ok (joinWith sep (xs.map (fun v => match v with | .pystr s => s | _ => "")))
  else .error "TypeError: sequence item: expected str instance"

/-- Python hashability of the modelled values (lists and dicts are
unhashable). -/
def pyHashable : PyVal → Bool
  | .pylist _ => false
  | .pydict _ => false
  | _ => true

/-- Equality used by `set()` on hashable values; Python identifies
`True` with `1` and `False` with `0`. -/
def atomBeq (a b : PyVal) : Bool :=
  let norm : PyVal → PyVal := fun v =>
    match v with
    | .pybool b => .pyint (if b then 1 else 0)
    | v => v
  match norm a, norm b with
  | .pynone, .pynone => true
  | .pyint x, .pyint y => x == y
  | .pystr x, .pystr y => x == y
  | _, _ => false

/-- Deduplication keeping first occurrences.  CPython's `list(set(x))`
order is unspecified (hash order); the model fixes first-occurrence
order, and no theorem depends on the order. -/
def dedupFirstAux (seen : List PyVal) : List PyVal → List PyVal
  | [] => []
  | x :: xs =>
    if seen.any (atomBeq x) then dedupFirstAux seen xs
    else x :: dedupFirstAux (x :: seen) xs

/-- `list(set(x))`: iterate a string (characters), list (elements, all
of which must be hashable) or dict (keys); anything else is not
iterable. -/
def pyListSet : PyVal → Except String (List PyVal)
  | .pylist xs =>
    if xs.all pyHashable then .ok (dedupFirstAux [] xs)
    else .error "TypeError: unhashable type"
  | .pystr s => .ok (dedupFirstAux [] (s.data.map (fun c => .pystr (String.mk [c]))))
  | .pydict kvs => .ok (dedupFirstAux [] (kvs.map (fun kv => .pystr kv.1)))
  | _ => .error "TypeError: object is not iterable"

/-- Line 251: `safe_get(json_data, 'total_experience', 'years',
default="") or safe_get(json_data, 'total_experience', default="")`. -/
def total_experience_expr (jsonData : PyVal) : PyVal :=
  pyOr (safe_get jsonData ["total_experience", "years"] (.pystr ""))
       (safe_get jsonData ["total_experience"] (.pystr ""))

/-- Lines 229-269: build `extracted_info` from the stored record.  The
steps run in source order inside the handler's `try`, so the first step
that raises (a `.split()` on a non-string truthy `full_name`, a
`", ".join` over non-string truthy address parts, a `set()` over
unhashable or non-iterable skills) aborts view building with that
exception's message.  The `accuracy_metrics` entry of the response is
the `AccuracyMetrics` record; the handler returns it paired with this
dict (`extract_resume_from_file` below). -/
def buildView (jsonData : PyVal) (eid : String) :
    Except String PyVal := do
  let full_name := safe_get jsonData ["full_name"] (.pystr "")
  let names ←
    (if truthy full_name then
      match full_name with
      | .pystr s => Except.ok (pySplitWs s)
      | _ => Except.error "AttributeError: object has no attribute for split"
     else Except.ok [""])
  let contact_info := safe_get jsonData ["contact_info"] (.pydict [])
  let phone_list := pyOr (safe_get contact_info ["phone"] (.pylist []))
    (safe_get jsonData ["phone"] (.pylist []))
  let phone_number :=
    match phone_list with
    | .pylist (x :: _) => x
    | _ => .pystr ""
  let email := pyOr (safe_get contact_info ["email"] (.pystr ""))
    (safe_get jsonData ["email"] (.pystr ""))
  let linkedin_url := safe_get contact_info ["linkedin_url"] (.pystr "")
  let address_info := safe_get jsonData ["address"] (.pydict [])
  let address ← pyJoin ", "
    ([safe_get address_info ["city"] (.pystr ""),
      safe_get address_info ["state"] (.pystr ""),
      safe_get address_info ["country"] (.pystr "")].filter truthy)
  let current_designation := safe_get jsonData ["current_designation"] (.pystr "")
  let skills_data := safe_get jsonData ["skills"] (.pydict [])
  let primary_skills ← pyListSet (safe_get skills_data ["primary_skills"] (.pylist []))
  let secondary_skills ← pyListSet (safe_get skills_data ["secondary_skills"] (.pylist []))
  let total_experience := total_experience_expr jsonData
  let education := safe_get jsonData ["education"] (.pylist [])
  .ok (.pydict
    [("first_name", .pystr (names.headD "")),
     ("last_name", .pystr (if names.length > 1 then joinWith " " names.tail else "")),
     ("current_designation", current_designation),
     ("mobile_number", phone_number),
     ("email", email),
     ("address", .pystr address),
     ("linkedin_url", linkedin_url),
     ("skills", .pydict [("primary", .pylist primary_skills),
                         ("secondary", .pylist secondary_skills)]),
     ("total_experience", total_experience),
     ("education", education),
     ("extraction_id", .pystr eid)])

/-! ## The `/extract-resume-file/` handler (lines 195-276) -/

/-- `s.lower()` (ASCII, sufficient for the extension check). -/
def pyLower (s : String) : String := String.mk (s.data.map Char.toLower)

/-- `s.endswith(suffix)`. -/
def pyEndsWith (s suffix : String) : Bool := suffix.data.isSuffixOf s.data

/-- Per-request inputs and external outcomes of one
`/extract-resume-file/` request: the uploaded filename, the outcome of
`extract_text_from_pdf` / `extract_text_from_docx` if called (the
extracted text, or the message of the `RuntimeError` they raise), the
outcome of the model call + fence strip + `json.loads` inside
`process_with_ai`, and the fresh uuid and timestamp the code
generates.  Writing the upload to the temp file is assumed to succeed
(its failure is not part of any claim). -/
structure ExtractParams where
  filename : String
  pdfOutcome : Except String String
  docxOutcome : Except String String
  aiParsed : Except String PyVal
  uuid : String
  date : String

/-- `json_data["extraction_id"]` (line 222): `process_with_ai` always
sets this key to the fresh uuid string, so the fallbacks are never
taken. -/
def eidOf (jsonData : PyVal) : String :=
  match (match jsonData with
         | .pydict kvs => dlookup kvs "extraction_id"
         | _ => none) with
  | some (.pystr s) => s
  | _ => ""

/-- Which text-extraction outcome lines 210-213 select for a recognized
extension (the `.pdf` branch is tested first). -/
def selectedText (p : ExtractParams) : Except String String :=
  if pyEndsWith (pyLower p.filename) ".pdf" then p.pdfOutcome else p.docxOutcome

/-- Everything one request changes or returns.  A successful result is
the `extracted_info` dict paired with the `accuracy_metrics` record the
response embeds. -/
structure ExtractOutcome where
  result : Except HttpError (PyVal × AccuracyMetrics)
  storage : Storage
  extractionAttempted : Bool
  tmpRemoved : Bool

/-- The `/extract-resume-file/` handler.  Control flow follows lines
199-276: the lowercased temp path's extension dispatches extraction; a
`.txt`-like name raises `HTTPException(400, ...)`; an empty text raises
`HTTPException(500, ...)`; both of those, and every other exception, are
caught by the handler's own `except Exception` and re-raised as
`HTTPException(500, str(e))`.  The storage assignment (line 223)
happens before accuracy metrics and view building, so a later exception
leaves the new entry in storage.  The `finally` clause always removes
the temp file. -/
def extract_resume_from_file (storage : Storage) (p : ExtractParams) :
    ExtractOutcome :=
  let lowerName := pyLower p.filename
  if pyEndsWith lowerName ".pdf" || pyEndsWith lowerName ".docx" then
    match selectedText p with
    | .error e =>
      { result := .error ⟨500, e⟩, storage := storage,
        extractionAttempted := true, tmpRemoved := true }
    | .ok text =>
      if text = "" then
        { result := .error ⟨500, strHTTPException 500 "Failed to extract text from resume"⟩,
          storage := storage, extractionAttempted := true, tmpRemoved := true }
      else
        match process_with_ai_model p.aiParsed p.uuid p.date with
        | .error e =>
          { result := .error ⟨500, e⟩, storage := storage,
            extractionAttempted := true, tmpRemoved := true }
        | .ok jsonData =>
          let eid := eidOf jsonData
          let storage1 := dset storage eid jsonData
          let metrics := calculate_extraction_accuracy
            (match jsonData with | .pydict kvs => kvs | _ => [])
          match buildView jsonData eid with
          | .error msg =>
            { result := .error ⟨500, msg⟩, storage := storage1,
              extractionAttempted := true, tmpRemoved := true }
          | .ok view =>
            { result := .ok (view, metrics), storage := storage1,
              extractionAttempted := true, tmpRemoved := true }
  else
    { result := .error ⟨500, strHTTPException 400
        "Unsupported file format. Only PDF and DOCX are allowed."⟩,
      storage := storage, extractionAttempted := false, tmpRemoved := true }

/-! ## The `/save-full-json/` handler (lines 280-325) -/

/-- The JSON body of `/save-full-json/`. -/
structure SaveRequest where
  extraction_id : String
  first_name : String
  last_name : String

/-- A successful response `{message, filepath}`. -/
structure SaveResponse where
  message : String
  filepath : String

/-- Everything one `/save-full-json/` request changes or returns:
`written` lists the files the request wrote (path and JSON content). -/
structure SaveOutcome where
  result : Except HttpError SaveResponse
  storage : Storage
  written : List (String × PyVal)

/-- The `full_save_data` JSON artifact (lines 303-310). -/
def fullSaveData (original : PyVal) (req : SaveRequest) (confTs : String) : PyVal :=
  .pydict
    [("original_extraction", original),
     ("confirmation_details", .pydict
       [("first_name", .pystr req.first_name),
        ("last_name", .pystr req.last_name),
        ("confirmation_timestamp", .pystr confTs)])]

/-- The `/save-full-json/` handler.  `ts` is the filename timestamp
(line 298), `confTs` the confirmation timestamp (line 308); `writeOk`
and `writeErrMsg` describe the outcome of the directory creation plus
JSON file write (lines 295 and 313-314).  A missing extraction id
raises `HTTPException(404, "Extraction data not found")`, but the
handler's own `except Exception` catches it and re-raises
`HTTPException(500, f"Error saving JSON: {str(e)}")`; a write failure is
wrapped the same way.  The entry is deleted (line 317) only after the
write succeeded. -/
def save_full_json (storage : Storage) (req : SaveRequest)
    (ts confTs : String) (writeOk : Bool) (writeErrMsg : String) : SaveOutcome :=
  match dlookup storage req.extraction_id with
  | none =>
    { result := .error ⟨500, "Error saving JSON: " ++
        strHTTPException 404 "Extraction data not found"⟩,
      storage := storage, written := [] }
  | some original =>
    let filepath := "saved_resumes/" ++ req.first_name ++ "_" ++
      req.last_name ++ "_" ++ ts ++ ".json"
    if writeOk then
      { result := .ok ⟨"JSON saved successfully", filepath⟩,
        storage := eraseKey storage req.extraction_id,
        written := [(filepath, fullSaveData original req confTs)] }
    else
      { result := .error ⟨500, "Error saving JSON: " ++ writeErrMsg⟩,
        storage := storage, written := [] }

/-! ## Small projections and dictionary lemmas -/

/-- Whether a handler outcome is an error response. -/
def isErr {α : Type} (r : Except HttpError α) : Bool :=
  match r with
  | .error _ => true
  | .ok _ => false

/-- The HTTP status a handler outcome surfaces (FastAPI returns 200 on
a normal return). -/
def errStatus {α : Type} (r : Except HttpError α) : Nat :=
  match r with
  | .error e => e.status
  | .ok _ => 200

/-- Emptiness as the specification words it: the resolved value is
absent (`None`, which also covers a missing parent mapping), an empty
string, an empty list, an empty mapping, or a list all of whose
elements are falsy. -/
def specEmptyVal (v : PyVal) : Prop :=
  v = .pynone ∨ v = .pystr "" ∨ v = .pylist [] ∨ v = .pydict [] ∨
    (∃ xs, v = .pylist xs ∧ ∀ x ∈ xs, truthy x = false)

/-! ## Claim C6: code-fence stripping before `json.loads` -/

/-- The backtick character. -/
def btick : Char := Char.ofNat 96

/-- `str.strip()` on the character list. -/
def pyStripList (cs : List Char) : List Char :=
  ((cs.dropWhile isPySpace).reverse.dropWhile isPySpace).reverse

/-- `json_str.strip()` (line 126). -/
def pyStrip (s : String) : String := String.mk (pyStripList s.data)

/-- One attempt of the regex alternative `^```json\s*` at the current
position: requires line start (`re.MULTILINE`), the literal lowercase
tag, then greedily consumes following whitespace.  Returns the
line-start state after the match (the last consumed character) and the
remainder. -/
def matchAlt1 (atStart : Bool) (cs : List Char) : Option (Bool × List Char) :=
  if atStart ∧ cs.take 7 = "```json".data then
    some ((((cs.drop 7).takeWhile isPySpace).getLast? == some '\n'),
      (cs.drop 7).dropWhile isPySpace)
  else none

/-- One attempt of the regex alternative `` \s*```$ `` at the current
position: a maximal whitespace run, three backticks, then end of line
or end of string (`$` under `re.MULTILINE`); a shorter whitespace run
cannot succeed because the character after it would still be
whitespace, not a backtick. -/
def matchAlt2 (cs : List Char) : Option (Bool × List Char) :=
  let rest := cs.dropWhile isPySpace
  if rest.take 3 = "```".data ∧
      (rest.drop 3 = [] ∨ (rest.drop 3).head? = some '\n') then
    some (false, rest.drop 3)
  else none

/-- The scan of `re.sub(r'^```json\s*|\s*```$', '', s, re.MULTILINE)`:
at each position try the first alternative, then the second, else emit
the character; matching continues on the original text after the match
(non-overlapping leftmost matches, first alternative preferred).  Both
alternatives consume at least one character, so fuel equal to the
length suffices. -/
def reSubFuel : Nat → Bool → List Char → List Char
  | 0, _, cs => cs
  | _ + 1, _, [] => []
  | f + 1, atStart, c :: cs =>
    match matchAlt1 atStart (c :: cs) with
    | some (b, rest) => reSubFuel f b rest
    | none =>
      match matchAlt2 (c :: cs) with
      | some (b, rest) => reSubFuel f b rest
      | none => c :: reSubFuel f (c == '\n') cs

/-- Line 127's regex substitution. -/
def stripFencesRe (s : String) : String :=
  String.mk (reSubFuel s.data.length true s.data)

/-- Lines 126-127: the exact text handed to `json.loads`. -/
def processedModelText (s : String) : String := stripFencesRe (pyStrip s)

/-! JSON validity, modelling the acceptance of `json.loads` (strict
mode: unescaped control characters are rejected inside strings).  The
number lexer is slightly more liberal than the RFC grammar (it accepts
e.g. leading zeros), which only enlarges the set of texts the
fence-equivalence statement covers; `NaN`/`Infinity` are not
accepted. -/

/-- JSON inter-token whitespace. -/
def isJsonWs (c : Char) : Bool := c = ' ' || c = '\t' || c = '\n' || c = '\r'

/-- Skip inter-token whitespace. -/
def skipWs (cs : List Char) : List Char := cs.dropWhile isJsonWs

/-- Hexadecimal digit. -/
def isHex (c : Char) : Bool :=
  c.isDigit || ('a' ≤ c && c ≤ 'f') || ('A' ≤ c && c ≤ 'F')

/-- Single-character escapes of JSON strings. -/
def isEsc (c : Char) : Bool :=
  c = '"' || c = '\\' || c = '/' || c = 'b' || c = 'f' || c = 'n' ||
  c = 'r' || c = 't'

/-- Lex a JSON string body after the opening quote, consuming through
the closing quote; literal control characters are rejected. -/
def lexStringBody : List Char → Option (List Char)
  | [] => none
  | c :: cs =>
    if c = '"' then some cs
    else if c = '\\' then
      match cs with
      | [] => none
      | d :: cs2 =>
        if d = 'u' then
          match cs2 with
          | h1 :: h2 :: h3 :: h4 :: cs3 =>
            if isHex h1 && isHex h2 && isHex h3 && isHex h4 then
              lexStringBody cs3
            else none
          | _ => none
        else if isEsc d then lexStringBody cs2
        else none
    else if c.toNat < 32 then none
    else lexStringBody cs

/-- Characters a JSON number token may contain. -/
def isNumChar (c : Char) : Bool :=
  c.isDigit || c = '-' || c = '+' || c = '.' || c = 'e' || c = 'E'

/-- Lex a number token (a maximal run of number characters starting
with a digit or minus sign). -/
def lexNumber (cs : List Char) : Option (List Char) :=
  match cs with
  | [] => none
  | c :: _ =>
    if c.isDigit || c = '-' then some (cs.dropWhile isNumChar)
    else none

/-- The three recogniser modes: a value, object members (positioned at
a key), array elements (positioned at a value). -/
inductive JMode where
  | value : JMode
  | members : JMode
  | elements : JMode

/-- The fueled JSON recogniser: consume one value (resp. the rest of an
object or array) and return the remaining input. -/
def jsonRun : Nat → JMode → List Char → Option (List Char)
  | 0, _, _ => none
  | f + 1, .value, cs =>
    match cs with
    | [] => none
    | c :: cs1 =>
      if c = '"' then lexStringBody cs1
      else if c = '{' then
        match skipWs cs1 with
        | [] => none
        | d :: cs2 => if d = '}' then some cs2 else jsonRun f .members (skipWs cs1)
      else if c = '[' then
        match skipWs cs1 with
        | [] => none
        | d :: cs2 => if d = ']' then some cs2 else jsonRun f .elements (skipWs cs1)
      else if c = 't' then
        (if cs1.take 3 = "rue".data then some (cs1.drop 3) else none)
      else if c = 'f' then
        (if cs1.take 4 = "alse".data then some (cs1.drop 4) else none)
      else if c = 'n' then
        (if cs1.take 3 = "ull".data then some (cs1.drop 3) else none)
      else lexNumber cs
  | f + 1, .members, cs =>
    match cs with
    | [] => none
    | c :: cs1 =>
      if c = '"' then
        match lexStringBody cs1 with
        | none => none
        | some cs2 =>
          match skipWs cs2 with
          | [] => none
          | d :: cs3 =>
            if d = ':' then
              match jsonRun f .value (skipWs cs3) with
              | none => none
              | some cs4 =>
                match skipWs cs4 with
                | [] => none
                | e :: cs5 =>
                  if e = ',' then jsonRun f .members (skipWs cs5)
                  else if e = '}' then some cs5
                  else none
            else none
      else none
  | f + 1, .elements, cs =>
    match jsonRun f .value cs with
    | none => none
    | some cs2 =>
      match skipWs cs2 with
      | [] => none
      | e :: cs3 =>
        if e = ',' then jsonRun f .elements (skipWs cs3)
        else if e = ']' then some cs3
        else none

/-- Acceptance by `json.loads`: leading whitespace, one value, trailing
whitespace. -/
def validJson (s : String) : Bool :=
  let cs := skipWs s.data
  match jsonRun (cs.length + 1) .value cs with
  | some rest => rest.all isJsonWs
  | none => false

/-! ### Backtick-adjacency invariants -/

/-- No newline-backtick adjacency in either order: such a pair is what
either regex alternative would need in order to match inside a text. -/
def tickPairOk (c d : Char) : Bool :=
  !((c == '\n' && d == btick) || (c == btick && d == '\n'))

/-- `tickPairOk` on every adjacent pair. -/
def pairsOk : List Char → Bool
  | c :: d :: rest => tickPairOk c d && pairsOk (d :: rest)
  | _ => true

/-- A chunk the fence regex cannot see: clean adjacent pairs and no
backtick at either edge. -/
def safeChunk (p : List Char) : Bool :=
  pairsOk p && p.head? != some btick && p.getLast? != some btick

theorem length_filter_not_add {α : Type} (l : List α) (p : α → Bool) :
    (l.filter (fun x => !p x)).length + (l.filter p).length = l.length := by
  induction l with
  | nil => rfl
  | cons a t ih =>
    cases h : p a <;> simp [List.filter_cons, h] <;> omega

theorem lookup_map_self (l : List String) (g : String → String) (f : String)
    (hf : f ∈ l) :
    List.lookup f (l.map fun x => (x, g x)) = some (g f) := by
  induction l with
  | nil => cases hf
  | cons a t ih =>
    by_cases hfa : f = a
    · subst hfa; simp [List.lookup]
    · have h : f ∈ t := by
        rcases List.mem_cons.mp hf with h | h
        · exact absurd h hfa
        · exact h
      have hb : (f == a) = false := beq_eq_false_iff_ne.mpr hfa
      simp only [List.map_cons, List.lookup, hb]
      exact ih h

theorem dlookup_dset_self (kvs : List (String × PyVal)) (k : String) (v : PyVal) :
    dlookup (dset kvs k v) k = some v := by
  induction kvs with
  | nil => simp [dset, dlookup]
  | cons a t ih =>
    obtain ⟨k2, v2⟩ := a
    by_cases h : k2 = k
    · subst h
      simp [dset, dlookup]
    · simp [dset, h, dlookup, ih]

theorem dlookup_dset_ne (kvs : List (String × PyVal)) (k k' : String) (v : PyVal)
    (h : k' ≠ k) :
    dlookup (dset kvs k v) k' = dlookup kvs k' := by
  induction kvs with
  | nil => simp [dset, dlookup, Ne.symm h]
  | cons a t ih =>
    obtain ⟨k2, v2⟩ := a
    by_cases hk : k2 = k
    · subst hk
      simp [dset, dlookup, Ne.symm h]
    · simp [dset, hk, dlookup, ih]

theorem dlookup_eraseKey_self (kvs : List (String × PyVal)) (k : String) :
    dlookup (eraseKey kvs k) k = none := by
  induction kvs with
  | nil => rfl
  | cons a t ih =>
    obtain ⟨k2, v2⟩ := a
    by_cases h : k2 = k
    · simpa [eraseKey, List.filter_cons, h] using ih
    · simpa [eraseKey, List.filter_cons, h, dlookup] using ih

/-! ## Claims C4 and C5: the accuracy scorer -/

theorem isEmptyVal_iff_spec (v : PyVal) :
    isEmptyVal v = true ↔ specEmptyVal v := by
  cases v with
  | pylist xs =>
    simp only [isEmptyVal, specEmptyVal, List.isEmpty_iff, List.all_eq_true,
      Bool.or_eq_true, decide_eq_true_eq, PyVal.pylist.injEq, Bool.not_eq_true',
      reduceCtorEq, false_or, or_false]
    constructor
    · rintro (h | h)
      · exact Or.inl h
      · exact Or.inr ⟨xs, rfl, h⟩
    · rintro (h | ⟨ys, hy, h⟩)
      · exact Or.inl h
      · cases hy; exact Or.inr h
  | _ =>
    simp [isEmptyVal, specEmptyVal, List.isEmpty_iff]

/-- C4.  For every input mapping, `calculate_extraction_accuracy`
returns `total_fields = 10`, `filled_fields + empty_fields =
total_fields`, a `field_status` whose keys are exactly the fixed
10-path checklist, and `extraction_rate = round(filled_fields / 10 *
100, 2)`. -/
theorem accuracy_shape (data : List (String × PyVal)) :
    (calculate_extraction_accuracy data).total_fields = 10 ∧
    (calculate_extraction_accuracy data).filled_fields +
      (calculate_extraction_accuracy data).empty_fields =
      (calculate_extraction_accuracy data).total_fields ∧
    (calculate_extraction_accuracy data).field_status.map Prod.fst =
      expectedFields ∧
    (calculate_extraction_accuracy data).extraction_rate =
      pyRound2 (((calculate_extraction_accuracy data).filled_fields : ℚ) / 10 * 100) := by
  refine ⟨rfl, ?_, ?_, ?_⟩
  · simpa [calculate_extraction_accuracy] using
      length_filter_not_add expectedFields (fun f => fieldIsEmpty data f)
  · have hmap : ∀ (l : List String),
        List.map (Prod.fst ∘ fun f =>
          (f, if fieldIsEmpty data f = true then "empty" else "filled")) l = l := by
      intro l
      induction l with
      | nil => rfl
      | cons a t ih => simp [ih]
    simpa [calculate_extraction_accuracy] using hmap expectedFields
  · have h10 : ((expectedFields.length : ℚ)) = 10 := by norm_num [expectedFields]
    simp [calculate_extraction_accuracy, h10]

/-- C5.  For every checklist field, the scorer's `field_status` marks
the field `"empty"` exactly when the resolved value is empty in the
specification's sense (`specEmptyVal`), and `"filled"` otherwise. -/
theorem accuracy_field_classification (data : List (String × PyVal))
    (f : String) (hf : f ∈ expectedFields) :
    (List.lookup f (calculate_extraction_accuracy data).field_status =
        some "empty" ↔ specEmptyVal (resolveField data f)) ∧
    (List.lookup f (calculate_extraction_accuracy data).field_status =
        some "filled" ↔ ¬ specEmptyVal (resolveField data f)) := by
  have hlook := lookup_map_self expectedFields
    (fun f => if fieldIsEmpty data f then "empty" else "filled") f hf
  have hstat : (calculate_extraction_accuracy data).field_status =
      expectedFields.map
        (fun f => (f, if fieldIsEmpty data f then "empty" else "filled")) := rfl
  rw [hstat, hlook]
  have hspec := isEmptyVal_iff_spec (resolveField data f)
  by_cases h : fieldIsEmpty data f
  · have : specEmptyVal (resolveField data f) := hspec.mp h
    simp [h, this]
  · have : ¬ specEmptyVal (resolveField data f) := fun hs => h (hspec.mpr hs)
    simp [h, this]

/-- Witness for C5 at the field `"address"` on the empty record: the
resolved value is absent, hence classified `"empty"`. -/
theorem accuracy_field_classification_witness :
    "address" ∈ expectedFields ∧
    ((List.lookup "address" (calculate_extraction_accuracy []).field_status =
        some "empty" ↔ specEmptyVal (resolveField [] "address")) ∧
     (List.lookup "address" (calculate_extraction_accuracy []).field_status =
        some "filled" ↔ ¬ specEmptyVal (resolveField [] "address"))) :=
  ⟨by decide, accuracy_field_classification [] "address" (by decide)⟩

/-! ## Claim C1: unknown or consumed extraction id on `/save-full-json/` -/

/-- Shared helper: the full outcome of `/save-full-json/` on an id not
in storage. -/
theorem save_missing_outcome (storage : Storage) (req : SaveRequest)
    (ts confTs : String) (writeOk : Bool) (msg : String)
    (h : dlookup storage req.extraction_id = none) :
    save_full_json storage req ts confTs writeOk msg =
      ⟨.error ⟨500, "Error saving JSON: 404: Extraction data not found"⟩,
        storage, []⟩ := by
  simp only [save_full_json, h]
  rfl

/-- C1 (code bug evaluated on the model).  For an extraction id not in
storage, the handler performs no file write and leaves storage
unchanged, but the `HTTPException(404, "Extraction data not found")` it
raises is caught by its own `except Exception` clause and surfaced as
status 500 with the 404 message merely embedded in the detail - not as
the not-found (404) classification the specification states. -/
theorem save_unknown_id_wrapped (storage : Storage) (req : SaveRequest)
    (ts confTs : String) (writeOk : Bool) (msg : String)
    (h : dlookup storage req.extraction_id = none) :
    (save_full_json storage req ts confTs writeOk msg).result =
      .error ⟨500, "Error saving JSON: 404: Extraction data not found"⟩ ∧
    (save_full_json storage req ts confTs writeOk msg).written = [] ∧
    (save_full_json storage req ts confTs writeOk msg).storage = storage := by
  simp only [save_full_json, h]
  refine ⟨?_, ?_, ?_⟩ <;> trivial

/-- Witness for C1: the concrete failing input (empty storage, id
`"missing"`). -/
theorem save_unknown_id_wrapped_witness :
    dlookup [] "missing" = none ∧
    ((save_full_json [] ⟨"missing", "a", "b"⟩ "t1" "c1" true "").result =
      .error ⟨500, "Error saving JSON: 404: Extraction data not found"⟩ ∧
     (save_full_json [] ⟨"missing", "a", "b"⟩ "t1" "c1" true "").written = [] ∧
     (save_full_json [] ⟨"missing", "a", "b"⟩ "t1" "c1" true "").storage = []) :=
  ⟨rfl, save_unknown_id_wrapped [] ⟨"missing", "a", "b"⟩ "t1" "c1" true "" rfl⟩

/-! ## Claim C2: unsupported upload extension -/

/-- C2 (code bug evaluated on the model).  For a filename whose
lowercased form ends in neither `.pdf` nor `.docx`, the request is
rejected before any text-extraction attempt and storage is untouched,
but the `HTTPException(400, ...)` is caught by the handler's own
`except Exception` clause and surfaced as status 500 with the 400
message embedded in the detail - not as the client-error (400)
classification the specification states. -/
theorem extract_unsupported_format (storage : Storage) (p : ExtractParams)
    (hpdf : pyEndsWith (pyLower p.filename) ".pdf" = false)
    (hdocx : pyEndsWith (pyLower p.filename) ".docx" = false) :
    (extract_resume_from_file storage p).result =
      .error ⟨500, "400: Unsupported file format. Only PDF and DOCX are allowed."⟩ ∧
    (extract_resume_from_file storage p).extractionAttempted = false ∧
    (extract_resume_from_file storage p).storage = storage := by
  simp only [extract_resume_from_file, hpdf, hdocx, Bool.or_self, if_false,
    Bool.false_eq_true]
  refine ⟨?_, ?_, ?_⟩ <;> trivial

/-- Witness for C2: the concrete failing input `resume.txt`. -/
theorem extract_unsupported_format_witness :
    pyEndsWith (pyLower "resume.txt") ".pdf" = false ∧
    pyEndsWith (pyLower "resume.txt") ".docx" = false ∧
    ((extract_resume_from_file []
        ⟨"resume.txt", .ok "x", .ok "x", .ok (.pydict []), "u", "d"⟩).result =
      .error ⟨500, "400: Unsupported file format. Only PDF and DOCX are allowed."⟩ ∧
     (extract_resume_from_file []
        ⟨"resume.txt", .ok "x", .ok "x", .ok (.pydict []), "u", "d"⟩).extractionAttempted = false ∧
     (extract_resume_from_file []
        ⟨"resume.txt", .ok "x", .ok "x", .ok (.pydict []), "u", "d"⟩).storage = []) :=
  ⟨rfl, rfl, extract_unsupported_format []
    ⟨"resume.txt", .ok "x", .ok "x", .ok (.pydict []), "u", "d"⟩ rfl rfl⟩

/-! ## Claim C10: the entry outlives a failed write -/

/-- C10.  The storage entry is deleted only after the artifact file is
written: a failing write leaves storage unchanged (the id stays
available for a retry) and writes nothing, while a successful write on
a present id both writes the artifact and removes the entry. -/
theorem save_delete_only_after_write (storage : Storage) (req : SaveRequest)
    (ts confTs : String) (msg : String) :
    (save_full_json storage req ts confTs false msg).storage = storage ∧
    (save_full_json storage req ts confTs false msg).written = [] ∧
    (∀ original, dlookup storage req.extraction_id = some original →
      (save_full_json storage req ts confTs true msg).storage =
        eraseKey storage req.extraction_id ∧
      (save_full_json storage req ts confTs true msg).written =
        [("saved_resumes/" ++ req.first_name ++ "_" ++ req.last_name ++ "_" ++
            ts ++ ".json", fullSaveData original req confTs)]) := by
  refine ⟨?_, ?_, ?_⟩
  · cases h : dlookup storage req.extraction_id <;> simp [save_full_json, h]
  · cases h : dlookup storage req.extraction_id <;> simp [save_full_json, h]
  · intro original h
    simp [save_full_json, h]

/-- Witness for C10 on a one-entry storage. -/
theorem save_delete_only_after_write_witness :
    (save_full_json [("i", .pynone)] ⟨"i", "a", "b"⟩ "t" "c" false "boom").storage =
      [("i", .pynone)] ∧
    (save_full_json [("i", .pynone)] ⟨"i", "a", "b"⟩ "t" "c" true "").storage = [] ∧
    (save_full_json [("i", .pynone)] ⟨"i", "a", "b"⟩ "t" "c" true "").written =
      [("saved_resumes/a_b_t.json", fullSaveData .pynone ⟨"i", "a", "b"⟩ "c")] := by
  have h := save_delete_only_after_write [("i", .pynone)] ⟨"i", "a", "b"⟩ "t" "c" "boom"
  have h2 := save_delete_only_after_write [("i", .pynone)] ⟨"i", "a", "b"⟩ "t" "c" ""
  exact ⟨h.1, (h2.2.2 .pynone rfl).1, (h2.2.2 .pynone rfl).2⟩

/-! ## Claim C7: two sequential saves with the same id -/

/-- Counterexample for C7 as stated.  The first call succeeds and
removes the entry, but the second call does not fail with a not-found
(404) classification: its surfaced status is 500 (the handler's
catch-all wraps its own 404). -/
theorem save_twice_counterexample :
    (save_full_json [("id1", .pynone)] ⟨"id1", "A", "B"⟩ "t1" "c1" true "").result =
      .ok ⟨"JSON saved successfully", "saved_resumes/A_B_t1.json"⟩ ∧
    (save_full_json [("id1", .pynone)] ⟨"id1", "A", "B"⟩ "t1" "c1" true "").storage = [] ∧
    errStatus (save_full_json
      (save_full_json [("id1", .pynone)] ⟨"id1", "A", "B"⟩ "t1" "c1" true "").storage
      ⟨"id1", "A", "B"⟩ "t2" "c2" true "").result = 500 ∧
    (500 : Nat) ≠ 404 :=
  ⟨rfl, rfl, rfl, by decide⟩

/-- C7 as amended.  Two sequential calls with the same present id: the
first succeeds, writes the artifact and removes the entry (single-use
semantics); the second fails, with HTTP status 500 whose detail embeds
the 404 not-found message (rather than a 404-classified response), and
writes nothing. -/
theorem save_twice_amended (storage : Storage) (req : SaveRequest)
    (original : PyVal) (ts1 cts1 ts2 cts2 m1 m2 : String)
    (h : dlookup storage req.extraction_id = some original) :
    (save_full_json storage req ts1 cts1 true m1).result =
      .ok ⟨"JSON saved successfully", "saved_resumes/" ++ req.first_name ++ "_" ++
        req.last_name ++ "_" ++ ts1 ++ ".json"⟩ ∧
    (save_full_json storage req ts1 cts1 true m1).written =
      [("saved_resumes/" ++ req.first_name ++ "_" ++ req.last_name ++ "_" ++
          ts1 ++ ".json", fullSaveData original req cts1)] ∧
    (save_full_json storage req ts1 cts1 true m1).storage =
      eraseKey storage req.extraction_id ∧
    (save_full_json (save_full_json storage req ts1 cts1 true m1).storage
        req ts2 cts2 true m2).result =
      .error ⟨500, "Error saving JSON: 404: Extraction data not found"⟩ ∧
    (save_full_json (save_full_json storage req ts1 cts1 true m1).storage
        req ts2 cts2 true m2).written = [] := by
  have h1 : (save_full_json storage req ts1 cts1 true m1).storage =
      eraseKey storage req.extraction_id := by
    simp [save_full_json, h]
  have h2 : dlookup (save_full_json storage req ts1 cts1 true m1).storage
      req.extraction_id = none := by
    rw [h1]; exact dlookup_eraseKey_self storage req.extraction_id
  have hsecond := save_missing_outcome _ req ts2 cts2 true m2 h2
  rw [hsecond]
  refine ⟨?_, ?_, h1, rfl, rfl⟩ <;> simp [save_full_json, h]

/-- Witness for C7's amended statement on a one-entry storage. -/
theorem save_twice_amended_witness :
    dlookup [("id9", .pystr "v")] "id9" = some (.pystr "v") ∧
    ((save_full_json [("id9", .pystr "v")] ⟨"id9", "X", "Y"⟩ "s1" "k1" true "").result =
      .ok ⟨"JSON saved successfully", "saved_resumes/X_Y_s1.json"⟩ ∧
     (save_full_json [("id9", .pystr "v")] ⟨"id9", "X", "Y"⟩ "s1" "k1" true "").written =
      [("saved_resumes/X_Y_s1.json", fullSaveData (.pystr "v") ⟨"id9", "X", "Y"⟩ "k1")] ∧
     (save_full_json [("id9", .pystr "v")] ⟨"id9", "X", "Y"⟩ "s1" "k1" true "").storage =
      eraseKey [("id9", .pystr "v")] "id9" ∧
     (save_full_json (save_full_json [("id9", .pystr "v")] ⟨"id9", "X", "Y"⟩ "s1" "k1" true "").storage
        ⟨"id9", "X", "Y"⟩ "s2" "k2" true "").result =
      .error ⟨500, "Error saving JSON: 404: Extraction data not found"⟩ ∧
     (save_full_json (save_full_json [("id9", .pystr "v")] ⟨"id9", "X", "Y"⟩ "s1" "k1" true "").storage
        ⟨"id9", "X", "Y"⟩ "s2" "k2" true "").written = []) :=
  ⟨rfl, save_twice_amended [("id9", .pystr "v")] ⟨"id9", "X", "Y"⟩ (.pystr "v")
    "s1" "k1" "s2" "k2" "" "" rfl⟩

/-! ## Claim C8: the flattened view's total experience -/

/-- Counterexample for C8 as stated.  With `total_experience` a mapping
whose `years` value is the empty string, the claim says the view takes
the `years` value (`""`); the code's `or`-chain instead falls back to
the whole mapping because the `years` value is falsy. -/
theorem total_experience_counterexample :
    total_experience_expr
      (.pydict [("total_experience", .pydict [("years", .pystr "")])]) =
      .pydict [("years", .pystr "")] ∧
    (.pydict [("years", .pystr "")] : PyVal) ≠ .pystr "" :=
  ⟨rfl, by simp⟩

/-- C8 as amended.  The view's `total_experience` prefers the `years`
value only when that value is truthy; with a falsy or absent `years` it
falls back to the raw `total_experience` value even when that value is
a mapping; a missing `total_experience` yields the empty string. -/
theorem total_experience_amended (kvs : List (String × PyVal)) :
    (∀ tkvs y, dlookup kvs "total_experience" = some (.pydict tkvs) →
      dlookup tkvs "years" = some y → truthy y = true →
      total_experience_expr (.pydict kvs) = y) ∧
    (∀ v, dlookup kvs "total_experience" = some v →
      (∀ t, v ≠ .pydict t) → truthy v = true →
      total_experience_expr (.pydict kvs) = v) ∧
    (∀ tkvs, dlookup kvs "total_experience" = some (.pydict tkvs) →
      truthy (safe_get (.pydict tkvs) ["years"] (.pystr "")) = false →
      tkvs ≠ [] →
      total_experience_expr (.pydict kvs) = .pydict tkvs) ∧
    (dlookup kvs "total_experience" = none →
      total_experience_expr (.pydict kvs) = .pystr "") := by
  refine ⟨?_, ?_, ?_, ?_⟩
  · intro tkvs y h hy hty
    have hne : y ≠ .pynone := by
      intro hn; rw [hn] at hty; exact absurd hty (by simp [truthy])
    simp [total_experience_expr, safe_get, h, hy, pyOr, hty, hne]
  · intro v h hnd htv
    have hv : safe_get v [] (.pystr "") = v := by
      cases v <;> simp_all [safe_get, truthy]
    cases v with
    | pydict t => exact absurd rfl (hnd t)
    | _ => simp_all [total_experience_expr, safe_get, pyOr, truthy]
  · intro tkvs h hy hne
    simp only [safe_get] at hy
    simp only [total_experience_expr, safe_get, h, pyOr]
    rw [if_neg (by simp [hy])]
    simp
  · intro h
    simp [total_experience_expr, safe_get, h, pyOr, truthy]

/-- Witness for C8's amended statement: a truthy `years` is preferred. -/
theorem total_experience_amended_witness :
    dlookup [("total_experience", .pydict [("years", .pystr "5")])]
      "total_experience" = some (.pydict [("years", .pystr "5")]) ∧
    dlookup [("years", .pystr "5")] "years" = some (.pystr "5") ∧
    truthy (.pystr "5") = true ∧
    total_experience_expr
      (.pydict [("total_experience", .pydict [("years", .pystr "5")])]) =
      .pystr "5" :=
  ⟨rfl, rfl, rfl,
    (total_experience_amended [("total_experience", .pydict [("years", .pystr "5")])]).1
      [("years", .pystr "5")] (.pystr "5") rfl rfl rfl⟩

/-! ## Claim C9: education normalization in `process_with_ai` -/

/-- C9.  When the parsed model output has an `education` field that is
a single mapping, `process_with_ai` wraps it into a one-element list
before the record (the value the handler stores) is returned; an
`education` field that is already a list is left unchanged. -/
theorem education_normalization (kvs : List (String × PyVal))
    (uuid date : String) :
    (∀ e, dlookup kvs "education" = some (.pydict e) →
      ∃ kvs2, process_with_ai_model (.ok (.pydict kvs)) uuid date =
          .ok (.pydict kvs2) ∧
        dlookup kvs2 "education" = some (.pylist [.pydict e])) ∧
    (∀ l, dlookup kvs "education" = some (.pylist l) →
      ∃ kvs2, process_with_ai_model (.ok (.pydict kvs)) uuid date =
          .ok (.pydict kvs2) ∧
        dlookup kvs2 "education" = some (.pylist l)) := by
  constructor
  · intro e h
    refine ⟨_, rfl, ?_⟩
    simp only [process_with_ai_model, h]
    rw [dlookup_dset_ne _ _ _ _ (by decide), dlookup_dset_ne _ _ _ _ (by decide)]
    exact dlookup_dset_self kvs "education" (.pylist [.pydict e])
  · intro l h
    refine ⟨_, rfl, ?_⟩
    simp only [process_with_ai_model, h]
    rw [dlookup_dset_ne _ _ _ _ (by decide), dlookup_dset_ne _ _ _ _ (by decide)]
    exact h

/-- Witness for C9 on concrete records of both shapes. -/
theorem education_normalization_witness :
    (dlookup [("education", .pydict [("degree", .pystr "BS")])] "education" =
      some (.pydict [("degree", .pystr "BS")]) ∧
     ∃ kvs2, process_with_ai_model
        (.ok (.pydict [("education", .pydict [("degree", .pystr "BS")])])) "u" "d" =
        .ok (.pydict kvs2) ∧
      dlookup kvs2 "education" = some (.pylist [.pydict [("degree", .pystr "BS")]])) ∧
    (dlookup [("education", .pylist [.pystr "x"])] "education" =
      some (.pylist [.pystr "x"]) ∧
     ∃ kvs2, process_with_ai_model
        (.ok (.pydict [("education", .pylist [.pystr "x"])])) "u" "d" =
        .ok (.pydict kvs2) ∧
      dlookup kvs2 "education" = some (.pylist [.pystr "x"])) :=
  ⟨⟨rfl, (education_normalization [("education", .pydict [("degree", .pystr "BS")])]
      "u" "d").1 [("degree", .pystr "BS")] rfl⟩,
   ⟨rfl, (education_normalization [("education", .pylist [.pystr "x"])]
      "u" "d").2 [.pystr "x"] rfl⟩⟩

/-! ## Claim C3: failed requests and the shared storage -/

/-- Counterexample for C3 as stated.  A structuring result whose
`full_name` is a (truthy) integer makes view building raise after the
record was already stored (line 223 precedes lines 229-269), so the
request fails yet the entry stays in storage. -/
theorem extract_storage_counterexample :
    isErr (extract_resume_from_file []
      ⟨"r.pdf", .ok "text", .ok "x",
       .ok (.pydict [("full_name", .pyint 5)]), "u1", "d1"⟩).result = true ∧
    (extract_resume_from_file []
      ⟨"r.pdf", .ok "text", .ok "x",
       .ok (.pydict [("full_name", .pyint 5)]), "u1", "d1"⟩).storage =
      [("u1", .pydict [("full_name", .pyint 5), ("extraction_id", .pystr "u1"),
         ("processing_date", .pystr "d1")])] ∧
    ([("u1", .pydict [("full_name", .pyint 5), ("extraction_id", .pystr "u1"),
       ("processing_date", .pystr "d1")])] : Storage) ≠ [] :=
  ⟨rfl, rfl, by simp⟩

/-- C3 as amended.  A failure at format validation, text extraction,
the empty-text check, or structuring aborts the request with storage
unchanged; but once structuring succeeds the record is stored
immediately, and a subsequent failure while building the response view
aborts the request with the fresh entry still in storage.  The
temporary upload is removed in every case. -/
theorem extract_abort_storage (storage : Storage) (p : ExtractParams) :
    (extract_resume_from_file storage p).tmpRemoved = true ∧
    (pyEndsWith (pyLower p.filename) ".pdf" = false →
     pyEndsWith (pyLower p.filename) ".docx" = false →
      (extract_resume_from_file storage p).storage = storage ∧
      isErr (extract_resume_from_file storage p).result = true) ∧
    (∀ e, selectedText p = .error e →
      (extract_resume_from_file storage p).storage = storage ∧
      isErr (extract_resume_from_file storage p).result = true) ∧
    (selectedText p = .ok "" →
      (extract_resume_from_file storage p).storage = storage ∧
      isErr (extract_resume_from_file storage p).result = true) ∧
    (∀ e, process_with_ai_model p.aiParsed p.uuid p.date = .error e →
      (extract_resume_from_file storage p).storage = storage ∧
      isErr (extract_resume_from_file storage p).result = true) ∧
    (∀ t d msg, selectedText p = .ok t → t ≠ "" →
      process_with_ai_model p.aiParsed p.uuid p.date = .ok d →
      buildView d (eidOf d) = .error msg →
      (pyEndsWith (pyLower p.filename) ".pdf" = true ∨
       pyEndsWith (pyLower p.filename) ".docx" = true) →
      (extract_resume_from_file storage p).result = .error ⟨500, msg⟩ ∧
      (extract_resume_from_file storage p).storage = dset storage (eidOf d) d ∧
      dlookup (extract_resume_from_file storage p).storage (eidOf d) = some d) := by
  refine ⟨?_, ?_, ?_, ?_, ?_, ?_⟩
  · simp only [extract_resume_from_file]
    split
    · split
      · rfl
      · split
        · rfl
        · split
          · rfl
          · split <;> rfl
    · rfl
  · intro h1 h2
    simp [extract_resume_from_file, h1, h2, isErr]
  · intro e hsel
    cases hext : (pyEndsWith (pyLower p.filename) ".pdf" ||
        pyEndsWith (pyLower p.filename) ".docx") with
    | false => simp [extract_resume_from_file, hext, isErr]
    | true => simp [extract_resume_from_file, hext, hsel, isErr]
  · intro hsel
    cases hext : (pyEndsWith (pyLower p.filename) ".pdf" ||
        pyEndsWith (pyLower p.filename) ".docx") with
    | false => simp [extract_resume_from_file, hext, isErr]
    | true => simp [extract_resume_from_file, hext, hsel, isErr]
  · intro e hai
    cases hext : (pyEndsWith (pyLower p.filename) ".pdf" ||
        pyEndsWith (pyLower p.filename) ".docx") with
    | false => simp [extract_resume_from_file, hext, isErr]
    | true =>
      cases hsel : selectedText p with
      | error e2 => simp [extract_resume_from_file, hext, hsel, isErr]
      | ok t =>
        by_cases ht : t = ""
        · simp [extract_resume_from_file, hext, hsel, ht, isErr]
        · simp [extract_resume_from_file, hext, hsel, ht, hai, isErr]
  · intro t d msg hsel ht hai hbv hvalid
    have hext : (pyEndsWith (pyLower p.filename) ".pdf" ||
        pyEndsWith (pyLower p.filename) ".docx") = true := by
      rcases hvalid with h | h <;> simp [h]
    simp [extract_resume_from_file, hext, hsel, ht, hai, hbv,
      dlookup_dset_self, isErr]

/-- Witness for C3's amended statement: a structuring failure on a
valid `.pdf` upload leaves storage unchanged, and the counterexample's
view-building failure stores the record. -/
theorem extract_abort_storage_witness :
    selectedText ⟨"cv.pdf", .ok "text", .ok "x", .error "bad json", "u", "d"⟩ =
      .ok "text" ∧
    process_with_ai_model (Except.error "bad json") "u" "d" =
      .error "AI processing failed: bad json" ∧
    ((extract_resume_from_file [("old", .pynone)]
        ⟨"cv.pdf", .ok "text", .ok "x", .error "bad json", "u", "d"⟩).storage =
      [("old", .pynone)] ∧
     isErr (extract_resume_from_file [("old", .pynone)]
        ⟨"cv.pdf", .ok "text", .ok "x", .error "bad json", "u", "d"⟩).result = true) :=
  ⟨rfl, rfl,
    (extract_abort_storage [("old", .pynone)]
      ⟨"cv.pdf", .ok "text", .ok "x", .error "bad json", "u", "d"⟩).2.2.2.2.1
      "AI processing failed: bad json" rfl⟩

/-! ### Character and list facts for the fence scanner -/

theorem isPySpace_btick : isPySpace btick = false := by decide

theorem jsonWs_isPySpace {c : Char} (h : isJsonWs c = true) : isPySpace c = true := by
  have hc : ((c = ' ' ∨ c = '\t') ∨ c = '\n') ∨ c = '\r' := by
    simpa [isJsonWs] using h
  rcases hc with ((rfl | rfl) | rfl) | rfl <;> decide

theorem fence7_data :
    "```json".data = btick :: btick :: btick :: 'j' :: 's' :: 'o' :: 'n' :: [] := by
  decide

theorem fence3_data : "```".data = btick :: btick :: btick :: [] := by decide

theorem dropWhile_all_append (p : Char → Bool) (A xs : List Char)
    (h : ∀ c ∈ A, p c = true) :
    (A ++ xs).dropWhile p = xs.dropWhile p := by
  induction A with
  | nil => rfl
  | cons a t ih =>
    have ha : p a = true := h a (List.mem_cons_self a t)
    simp only [List.cons_append, List.dropWhile_cons, ha, if_true]
    exact ih (fun c hc => h c (List.mem_cons_of_mem a hc))

theorem dropWhile_cons_false (p : Char → Bool) (c : Char) (l : List Char)
    (h : p c = false) : (c :: l).dropWhile p = c :: l := by
  simp [List.dropWhile_cons, h]

theorem reSubFuel_nil (f : Nat) (s : Bool) : reSubFuel f s [] = [] := by
  cases f <;> rfl

theorem matchAlt1_none_of_head (s : Bool) (c : Char) (cs : List Char)
    (h : c ≠ btick) : matchAlt1 s (c :: cs) = none := by
  have hc : ¬(s = true ∧ (c :: cs).take 7 = "```json".data) := by
    rintro ⟨-, htake⟩
    rw [fence7_data] at htake
    simp only [List.take_succ_cons, List.cons.injEq] at htake
    exact h htake.1
  unfold matchAlt1
  exact if_neg hc

theorem matchAlt1_none_of_start (cs : List Char) : matchAlt1 false cs = none := by
  simp [matchAlt1]

theorem reSubFuel_step_alt1 (f : Nat) (s b : Bool) (c : Char) (cs rest : List Char)
    (h : matchAlt1 s (c :: cs) = some (b, rest)) :
    reSubFuel (f + 1) s (c :: cs) = reSubFuel f b rest := by
  simp [reSubFuel, h]

theorem reSubFuel_step_alt2 (f : Nat) (s b : Bool) (c : Char) (cs rest : List Char)
    (h1 : matchAlt1 s (c :: cs) = none)
    (h2 : matchAlt2 (c :: cs) = some (b, rest)) :
    reSubFuel (f + 1) s (c :: cs) = reSubFuel f b rest := by
  simp [reSubFuel, h1, h2]

theorem reSubFuel_step_emit (f : Nat) (s : Bool) (c : Char) (cs : List Char)
    (h1 : matchAlt1 s (c :: cs) = none)
    (h2 : matchAlt2 (c :: cs) = none) :
    reSubFuel (f + 1) s (c :: cs) = c :: reSubFuel f (c == '\n') cs := by
  simp [reSubFuel, h1, h2]

theorem matchAlt2_cons_ws (c : Char) (cs : List Char) (h : isPySpace c = true) :
    matchAlt2 (c :: cs) = matchAlt2 cs := by
  simp [matchAlt2, List.dropWhile_cons, h]

/-- The closing-fence tail: a whitespace run followed by the final three
backticks is consumed in one step by the second alternative, leaving
nothing. -/
theorem reSub_tail (B : List Char) (hB : ∀ c ∈ B, isPySpace c = true)
    (f : Nat) (s : Bool) (hf : (B ++ "```".data).length ≤ f) :
    reSubFuel f s (B ++ "```".data) = [] := by
  obtain ⟨f', rfl⟩ : ∃ f', f = f' + 1 := by
    refine ⟨f - 1, ?_⟩
    have : 1 ≤ (B ++ "```".data).length := by
      rw [fence3_data]; simp
    omega
  have hdrop : (B ++ "```".data).dropWhile isPySpace = "```".data := by
    rw [dropWhile_all_append _ _ _ hB, fence3_data]
    exact dropWhile_cons_false _ _ _ isPySpace_btick
  have hm2 : matchAlt2 (B ++ "```".data) = some (false, []) := by
    simp only [matchAlt2]
    rw [hdrop]
    decide
  have hm1 : matchAlt1 s (B ++ "```".data) = none := by
    cases B with
    | nil =>
      have hc : ¬(s = true ∧ ("```".data).take 7 = "```json".data) := by
        rintro ⟨-, htake⟩
        exact absurd htake (by decide)
      simp only [List.nil_append]
      unfold matchAlt1
      exact if_neg hc
    | cons b B' =>
      have hb : b ≠ btick := by
        intro hbe
        have hmem := hB b (List.mem_cons_self b B')
        rw [hbe, isPySpace_btick] at hmem
        exact Bool.false_ne_true hmem
      exact matchAlt1_none_of_head s b _ hb
  cases B with
  | nil =>
    rw [List.nil_append] at hm1 hm2 ⊢
    rw [fence3_data] at hm1 hm2 ⊢
    rw [reSubFuel_step_alt2 f' s false _ _ _ hm1 hm2]
    exact reSubFuel_nil f' false
  | cons b B' =>
    rw [List.cons_append] at hm1 hm2 ⊢
    rw [reSubFuel_step_alt2 f' s false _ _ _ hm1 hm2]
    exact reSubFuel_nil f' false

theorem pairsOk_tail (c : Char) (l : List Char) (h : pairsOk (c :: l) = true) :
    pairsOk l = true := by
  cases l with
  | nil => rfl
  | cons d r =>
    simp only [pairsOk, Bool.and_eq_true] at h
    exact h.2

theorem pairsOk_head (c d : Char) (r : List Char)
    (h : pairsOk (c :: d :: r) = true) : tickPairOk c d = true := by
  simp only [pairsOk, Bool.and_eq_true] at h
  exact h.1

theorem tickPairOk_right_not_lf (z : Char) (h : tickPairOk btick z = true) :
    z ≠ '\n' := by
  intro hz
  rw [hz] at h
  exact absurd h (by decide)

theorem tickPairOk_left_not_lf (c : Char) (h : tickPairOk c btick = true) :
    c ≠ '\n' := by
  intro hc
  rw [hc] at h
  exact absurd h (by decide)

/-- Inside a chunk with clean pairs whose last character is neither
whitespace nor a backtick, the second alternative can never match,
whatever follows the chunk. -/
theorem noAlt2 (T : List Char) : ∀ (v : List Char), v ≠ [] →
    pairsOk v = true →
    (∀ c, v.getLast? = some c → isPySpace c = false ∧ c ≠ btick) →
    matchAlt2 (v ++ T) = none := by
  intro v
  induction v with
  | nil => intro h _ _; exact absurd rfl h
  | cons c v' ih =>
    intro _ hp hl
    by_cases hws : isPySpace c = true
    · cases v' with
      | nil =>
        have hlast := hl c rfl
        rw [hws] at hlast
        exact absurd hlast.1 (by simp)
      | cons x v'' =>
        rw [List.cons_append, matchAlt2_cons_ws c _ hws]
        refine ih (by simp) (pairsOk_tail _ _ hp) ?_
        intro d hd
        exact hl d (by simpa [List.getLast?_cons_cons] using hd)
    · have hwsf : isPySpace c = false := by simpa using hws
      rw [List.cons_append]
      have hcond : ¬((c :: (v' ++ T)).take 3 = "```".data ∧
          ((c :: (v' ++ T)).drop 3 = [] ∨
            ((c :: (v' ++ T)).drop 3).head? = some '\n')) := by
        rintro ⟨h3, hdollar⟩
        rw [fence3_data] at h3
        simp only [List.take_succ_cons, List.cons.injEq] at h3
        obtain ⟨hc1, h3'⟩ := h3
        cases v' with
        | nil => exact (hl c rfl).2 hc1
        | cons x v'' =>
          simp only [List.cons_append, List.take_succ_cons, List.cons.injEq] at h3'
          obtain ⟨hx, h3''⟩ := h3'
          cases v'' with
          | nil => exact (hl x (by simp)).2 hx
          | cons y v''' =>
            simp only [List.cons_append, List.take_succ_cons, List.cons.injEq] at h3''
            obtain ⟨hy, -⟩ := h3''
            subst hc1
            subst hx
            subst hy
            cases v''' with
            | nil => exact (hl btick (by simp)).2 rfl
            | cons z v4 =>
              have hz : z ≠ '\n' := by
                have h1 := pairsOk_tail _ _ hp
                have h2 := pairsOk_tail _ _ h1
                exact tickPairOk_right_not_lf z (pairsOk_head _ _ _ h2)
              simp only [List.cons_append, List.drop_succ_cons, List.drop_zero] at hdollar
              rcases hdollar with hd | hd
              · exact absurd hd (by simp)
              · simp only [List.head?_cons, Option.some.injEq] at hd
                exact hz hd
      simp only [matchAlt2]
      rw [dropWhile_cons_false _ _ _ hwsf]
      exact if_neg hcond

/-- Scanning through a clean chunk emits it unchanged and continues on
the tail. -/
theorem reSub_scan (T R : List Char)
    (hT : ∀ f s, T.length ≤ f → reSubFuel f s T = R) :
    ∀ (v : List Char) (f : Nat) (s : Bool),
      (v ++ T).length ≤ f →
      pairsOk v = true →
      (∀ c, v.getLast? = some c → isPySpace c = false ∧ c ≠ btick) →
      (v.head? = some btick → s = false) →
      reSubFuel f s (v ++ T) = v ++ R := by
  intro v
  induction v with
  | nil =>
    intro f s hf _ _ _
    simpa using hT f s (by simpa using hf)
  | cons c v' ih =>
    intro f s hf hp hl hh
    obtain ⟨f', rfl⟩ : ∃ f', f = f' + 1 := by
      refine ⟨f - 1, ?_⟩
      simp only [List.cons_append, List.length_cons] at hf
      omega
    have hm1 : matchAlt1 s (c :: (v' ++ T)) = none := by
      by_cases hc : c = btick
      · rw [hh (by simp [hc])]
        exact matchAlt1_none_of_start _
      · exact matchAlt1_none_of_head s c _ hc
    have hm2 : matchAlt2 ((c :: v') ++ T) = none :=
      noAlt2 T (c :: v') (by simp) hp hl
    rw [List.cons_append] at hm2 ⊢
    rw [reSubFuel_step_emit f' s c _ hm1 hm2]
    rw [ih f' (c == '\n')
      (by simp only [List.cons_append, List.length_cons] at hf; omega)
      (pairsOk_tail _ _ hp)
      (fun d hd => hl d (by
        cases v' with
        | nil => exact absurd hd (by simp)
        | cons a b => simpa [List.getLast?_cons_cons] using hd))
      (fun hb => by
        have hpair : tickPairOk c btick = true := by
          cases v' with
          | nil => exact absurd hb (by simp)
          | cons a b =>
            have ha : a = btick := by simpa using hb
            rw [← ha]
            exact pairsOk_head _ _ _ hp
        have := tickPairOk_left_not_lf c hpair
        simpa using this)]
    rfl

/-! ### Facts about `str.strip()` -/

theorem length_dropWhile_le (p : Char → Bool) (l : List Char) :
    (l.dropWhile p).length ≤ l.length := by
  induction l with
  | nil => simp
  | cons c t ih =>
    by_cases h : p c = true
    · rw [List.dropWhile_cons, if_pos h]
      simp only [List.length_cons]
      omega
    · rw [dropWhile_cons_false _ _ _ (by simpa using h)]

theorem dropWhile_eq_self_head (p : Char → Bool) (l : List Char)
    (h : l.dropWhile p = l) : ∀ c, l.head? = some c → p c = false := by
  intro c hc
  cases l with
  | nil => exact absurd hc (by simp)
  | cons c0 t =>
    have hc0 : c0 = c := by simpa using hc
    subst hc0
    by_contra hp
    have hp' : p c0 = true := by simpa using hp
    rw [List.dropWhile_cons, if_pos hp'] at h
    have := length_dropWhile_le p t
    rw [h] at this
    simp at this

theorem dropWhile_length_eq (p : Char → Bool) (l : List Char)
    (h : (l.dropWhile p).length = l.length) : l.dropWhile p = l := by
  cases l with
  | nil => rfl
  | cons c t =>
    by_cases hp : p c = true
    · rw [List.dropWhile_cons, if_pos hp] at h ⊢
      have := length_dropWhile_le p t
      simp only [List.length_cons] at h
      omega
    · exact dropWhile_cons_false _ _ _ (by simpa using hp)

theorem pyStripList_self (cs : List Char) (h : pyStripList cs = cs) :
    cs.dropWhile isPySpace = cs ∧
    cs.reverse.dropWhile isPySpace = cs.reverse := by
  have hlen := congrArg List.length h
  simp only [pyStripList, List.length_reverse] at hlen
  have l1 := length_dropWhile_le isPySpace cs
  have l2 := length_dropWhile_le isPySpace (cs.dropWhile isPySpace).reverse
  rw [List.length_reverse] at l2
  have hm : cs.dropWhile isPySpace = cs :=
    dropWhile_length_eq _ _ (by omega)
  refine ⟨hm, ?_⟩
  have h2 : ((cs.reverse.dropWhile isPySpace).reverse) = cs := by
    simpa [pyStripList, hm] using h
  have := congrArg List.reverse h2
  simpa using this

theorem pyStripList_self_facts (cs : List Char) (h : pyStripList cs = cs) :
    (∀ c, cs.head? = some c → isPySpace c = false) ∧
    (∀ c, cs.getLast? = some c → isPySpace c = false) := by
  obtain ⟨h1, h2⟩ := pyStripList_self cs h
  refine ⟨dropWhile_eq_self_head _ _ h1, ?_⟩
  intro c hc
  exact dropWhile_eq_self_head _ _ h2 c (by rw [List.head?_reverse]; exact hc)

theorem pyStripList_concat (C core D : List Char)
    (hC : ∀ c ∈ C, isPySpace c = true) (hD : ∀ c ∈ D, isPySpace c = true)
    (hh : ∀ c, core.head? = some c → isPySpace c = false)
    (hl : ∀ c, core.getLast? = some c → isPySpace c = false)
    (hne : core ≠ []) :
    pyStripList (C ++ core ++ D) = core := by
  cases core with
  | nil => exact absurd rfl hne
  | cons c0 rest =>
    have hdrop1 : (C ++ (c0 :: rest) ++ D).dropWhile isPySpace =
        (c0 :: rest) ++ D := by
      rw [List.append_assoc, dropWhile_all_append _ _ _ hC, List.cons_append,
        dropWhile_cons_false _ _ _ (hh c0 rfl)]
    have hdrop2 : ((c0 :: rest) ++ D).reverse.dropWhile isPySpace =
        (c0 :: rest).reverse := by
      rw [List.reverse_append,
        dropWhile_all_append _ _ _ (fun c hc => hD c (List.mem_reverse.mp hc))]
      cases hrev : (c0 :: rest).reverse with
      | nil => exact absurd hrev (by simp)
      | cons x xs =>
        have hx : (c0 :: rest).getLast? = some x := by
          rw [← List.head?_reverse, hrev]; rfl
        exact dropWhile_cons_false _ _ _ (hl x hx)
    simp only [pyStripList, hdrop1, hdrop2, List.reverse_reverse]

theorem str_data_append (a b : String) : (a ++ b).data = a.data ++ b.data := by
  rcases a with ⟨la⟩
  rcases b with ⟨lb⟩
  rfl

theorem str_mk_data (s : String) : String.mk s.data = s := by
  rcases s with ⟨l⟩
  rfl

theorem pyStrip_eq_self_data (s : String) (h : pyStrip s = s) :
    pyStripList s.data = s.data := by
  have := congrArg String.data h
  simpa [pyStrip] using this

/-! ### Chunk algebra for the JSON bridge -/

theorem getLast?_mem_list : ∀ (l : List Char) (a : Char), l.getLast? = some a → a ∈ l := by
  intro l
  induction l with
  | nil => intro a h; exact absurd h (by simp)
  | cons c t ih =>
    intro a h
    cases t with
    | nil =>
      have : c = a := by simpa using h
      simp [this]
    | cons d r =>
      rw [List.getLast?_cons_cons] at h
      exact List.mem_cons_of_mem c (ih a h)

theorem getLast?_cons_ne (a : Char) (l : List Char) (h : l ≠ []) :
    (a :: l).getLast? = l.getLast? := by
  cases l with
  | nil => exact absurd rfl h
  | cons d r => exact List.getLast?_cons_cons

theorem tickPairOk_of_ne (c d : Char) (hc : c ≠ btick) (hd : d ≠ btick) :
    tickPairOk c d = true := by
  have hcb : (c == btick) = false := beq_eq_false_iff_ne.mpr hc
  have hdb : (d == btick) = false := beq_eq_false_iff_ne.mpr hd
  simp [tickPairOk, hcb, hdb]

theorem tickPairOk_of_ne_lf (c d : Char) (hc : c ≠ '\n') (hd : d ≠ '\n') :
    tickPairOk c d = true := by
  have hcb : (c == '\n') = false := beq_eq_false_iff_ne.mpr hc
  have hdb : (d == '\n') = false := beq_eq_false_iff_ne.mpr hd
  simp [tickPairOk, hcb, hdb]

theorem pairsOk_of_forall (P : Char → Prop)
    (hP : ∀ c d, P c → P d → tickPairOk c d = true) :
    ∀ (p : List Char), (∀ c ∈ p, P c) → pairsOk p = true := by
  intro p
  induction p with
  | nil => intro _; rfl
  | cons c t ih =>
    intro h
    cases t with
    | nil => rfl
    | cons d r =>
      have h1 : tickPairOk c d :=
        hP c d (h c (by simp)) (h d (by simp))
      have h2 : pairsOk (d :: r) = true :=
        ih (fun x hx => h x (List.mem_cons_of_mem c hx))
      simp [pairsOk, h1, h2]

theorem noTick_safe (p : List Char) (h : ∀ c ∈ p, c ≠ btick) :
    safeChunk p = true := by
  have hp : pairsOk p = true :=
    pairsOk_of_forall (fun c => c ≠ btick)
      (fun c d hc hd => tickPairOk_of_ne c d hc hd) p h
  have hh : (p.head? != some btick) = true := by
    cases p with
    | nil => rfl
    | cons c t =>
      simp only [List.head?_cons, bne_iff_ne, ne_eq, Option.some.injEq]
      exact h c (by simp)
  have hl : (p.getLast? != some btick) = true := by
    cases hg : p.getLast? with
    | none => rfl
    | some a =>
      simp only [bne_iff_ne, ne_eq, Option.some.injEq]
      exact h a (getLast?_mem_list p a hg)
  simp [safeChunk, hp, hh, hl]

theorem noLF_pairsOk (p : List Char) (h : ∀ c ∈ p, c ≠ '\n') :
    pairsOk p = true :=
  pairsOk_of_forall (fun c => c ≠ '\n')
    (fun c d hc hd => tickPairOk_of_ne_lf c d hc hd) p h

theorem string_chunk_safe (q : List Char) (hq : ∀ c ∈ q, c ≠ '\n')
    (hne : q ≠ []) (hlast : q.getLast? = some '"') :
    safeChunk ('"' :: q) = true := by
  have hp : pairsOk ('"' :: q) = true := by
    refine noLF_pairsOk _ ?_
    intro c hc
    rcases List.mem_cons.mp hc with rfl | hc
    · decide
    · exact hq c hc
  have hl : ('"' :: q).getLast? = some '"' := by
    rw [getLast?_cons_ne _ _ hne]
    exact hlast
  simp [safeChunk, hp, hl]
  decide

theorem pairsOk_append (X : List Char) :
    ∀ (Y : List Char), pairsOk X = true → pairsOk Y = true →
    (∀ a, X.getLast? = some a → a ≠ btick) →
    (∀ b, Y.head? = some b → b ≠ btick) →
    pairsOk (X ++ Y) = true := by
  induction X with
  | nil => intro Y _ hY _ _; simpa using hY
  | cons c X' ih =>
    intro Y hX hY hXl hYh
    cases X' with
    | nil =>
      cases Y with
      | nil => rfl
      | cons d Y' =>
        have h1 : tickPairOk c d = true :=
          tickPairOk_of_ne c d (hXl c (by simp)) (hYh d (by simp))
        simp [pairsOk, h1, hY]
    | cons c2 X'' =>
      have h1 : tickPairOk c c2 = true := pairsOk_head _ _ _ hX
      have h2 : pairsOk ((c2 :: X'') ++ Y) = true := by
        refine ih Y (pairsOk_tail _ _ hX) hY ?_ hYh
        intro a ha
        exact hXl a (by rw [List.getLast?_cons_cons]; exact ha)
      simpa [pairsOk, h1] using h2

theorem safeChunk_append (X Y : List Char)
    (hX : safeChunk X = true) (hY : safeChunk Y = true) :
    safeChunk (X ++ Y) = true := by
  simp only [safeChunk, Bool.and_eq_true, bne_iff_ne, ne_eq] at hX hY
  obtain ⟨⟨hX1, hX2⟩, hX3⟩ := hX
  obtain ⟨⟨hY1, hY2⟩, hY3⟩ := hY
  have hp : pairsOk (X ++ Y) = true := by
    refine pairsOk_append X Y hX1 hY1 ?_ ?_
    · intro a ha hab
      exact hX3 (by rw [ha, hab])
    · intro b hb hbb
      exact hY2 (by rw [hb, hbb])
  have hh : ¬(X ++ Y).head? = some btick := by
    cases X with
    | nil =>
      simpa using hY2
    | cons c X' =>
      simp only [List.cons_append, List.head?_cons]
      intro hc
      exact hX2 (by rw [List.head?_cons, hc])
  have hl : ¬(X ++ Y).getLast? = some btick := by
    cases Y with
    | nil =>
      simpa using hX3
    | cons d Y' =>
      rw [List.getLast?_append_of_ne_nil X (by simp)]
      exact hY3
  simp only [safeChunk, Bool.and_eq_true, bne_iff_ne, ne_eq]
  exact ⟨⟨hp, hh⟩, hl⟩

theorem jsonWs_ne_btick {c : Char} (h : isJsonWs c = true) : c ≠ btick := by
  intro hc
  rw [hc] at h
  exact absurd h (by decide)

theorem wsChunk_safe (cs : List Char) :
    safeChunk (cs.takeWhile isJsonWs) = true := by
  refine noTick_safe _ ?_
  intro c hc
  exact jsonWs_ne_btick (List.mem_takeWhile_imp hc)

theorem skipWs_split (cs : List Char) :
    cs = cs.takeWhile isJsonWs ++ skipWs cs :=
  (List.takeWhile_append_dropWhile isJsonWs cs).symm

theorem isHex_ne_lf {c : Char} (h : isHex c = true) : c ≠ '\n' := by
  intro hc
  rw [hc] at h
  exact absurd h (by decide)

theorem isEsc_ne_lf {c : Char} (h : isEsc c = true) : c ≠ '\n' := by
  intro hc
  rw [hc] at h
  exact absurd h (by decide)

/-- Every string body the lexer accepts is free of literal newlines
(strict mode rejects control characters, and escape sequences consist
of printable characters), and ends at the closing quote. -/
theorem lexStringBody_spec : ∀ (n : Nat) (cs rest : List Char),
    cs.length ≤ n → lexStringBody cs = some rest →
    ∃ q, cs = q ++ rest ∧ q ≠ [] ∧ q.getLast? = some '"' ∧
      (∀ c ∈ q, c ≠ '\n') := by
  intro n
  induction n with
  | zero =>
    intro cs rest hlen hrun
    have : cs = [] := List.length_eq_zero.mp (by omega)
    subst this
    exact Option.noConfusion hrun
  | succ n ih =>
    intro cs rest hlen hrun
    cases cs with
    | nil => exact Option.noConfusion hrun
    | cons c cs' =>
      unfold lexStringBody at hrun
      by_cases h1 : c = '"'
      · rw [if_pos h1] at hrun
        refine ⟨[c], by simpa using hrun, by simp, by simp [h1], ?_⟩
        intro x hx
        rcases List.mem_cons.mp hx with rfl | hx
        · rw [h1]; decide
        · exact absurd hx (by simp)
      · rw [if_neg h1] at hrun
        by_cases h2 : c = '\\'
        · rw [if_pos h2] at hrun
          cases cs' with
          | nil => exact absurd hrun (by simp)
          | cons d cs2 =>
            simp only [] at hrun
            by_cases h3 : d = 'u'
            · rw [if_pos h3] at hrun
              rcases cs2 with _ | ⟨e1, _ | ⟨e2, _ | ⟨e3, _ | ⟨e4, cs3⟩⟩⟩⟩
              · exact absurd hrun (by simp)
              · exact absurd hrun (by simp)
              · exact absurd hrun (by simp)
              · exact absurd hrun (by simp)
              · simp only [] at hrun
                by_cases hhex : (isHex e1 && isHex e2 && isHex e3 && isHex e4) = true
                · rw [if_pos hhex] at hrun
                  simp only [List.length_cons] at hlen
                  obtain ⟨q3, heq, hne, hlast, hmem⟩ :=
                    ih cs3 rest (by omega) hrun
                  simp only [Bool.and_eq_true] at hhex
                  refine ⟨c :: d :: e1 :: e2 :: e3 :: e4 :: q3,
                    by simp [heq], by simp, ?_, ?_⟩
                  · rw [getLast?_cons_ne _ _ (by simp),
                      getLast?_cons_ne _ _ (by simp),
                      getLast?_cons_ne _ _ (by simp),
                      getLast?_cons_ne _ _ (by simp),
                      getLast?_cons_ne _ _ (by simp),
                      getLast?_cons_ne _ _ hne]
                    exact hlast
                  · intro x hx
                    simp only [List.mem_cons] at hx
                    rcases hx with rfl | rfl | rfl | rfl | rfl | rfl | hx
                    · rw [h2]; decide
                    · rw [h3]; decide
                    · exact isHex_ne_lf hhex.1.1.1
                    · exact isHex_ne_lf hhex.1.1.2
                    · exact isHex_ne_lf hhex.1.2
                    · exact isHex_ne_lf hhex.2
                    · exact hmem x hx
                · rw [if_neg hhex] at hrun
                  exact absurd hrun (by simp)
            · rw [if_neg h3] at hrun
              by_cases h4 : isEsc d = true
              · rw [if_pos h4] at hrun
                simp only [List.length_cons] at hlen
                obtain ⟨q2, heq, hne, hlast, hmem⟩ :=
                  ih cs2 rest (by omega) hrun
                refine ⟨c :: d :: q2, by simp [heq], by simp, ?_, ?_⟩
                · rw [getLast?_cons_ne _ _ (by simp),
                    getLast?_cons_ne _ _ hne]
                  exact hlast
                · intro x hx
                  simp only [List.mem_cons] at hx
                  rcases hx with rfl | rfl | hx
                  · rw [h2]; decide
                  · exact isEsc_ne_lf h4
                  · exact hmem x hx
              · rw [if_neg h4] at hrun
                exact absurd hrun (by simp)
        · rw [if_neg h2] at hrun
          by_cases h5 : c.toNat < 32
          · rw [if_pos h5] at hrun
            exact absurd hrun (by simp)
          · rw [if_neg h5] at hrun
            simp only [List.length_cons] at hlen
            obtain ⟨q', heq, hne, hlast, hmem⟩ :=
              ih cs' rest (by omega) hrun
            refine ⟨c :: q', by simp [heq], by simp, ?_, ?_⟩
            · rw [getLast?_cons_ne _ _ hne]
              exact hlast
            · intro x hx
              rcases List.mem_cons.mp hx with rfl | hx
              · intro hc
                rw [hc] at h5
                exact h5 (by decide)
              · exact hmem x hx

theorem isNumChar_ne_btick {c : Char} (h : isNumChar c = true) : c ≠ btick := by
  intro hc
  rw [hc] at h
  exact absurd h (by decide)

theorem lexNumber_spec (cs rest : List Char) (h : lexNumber cs = some rest) :
    ∃ q, cs = q ++ rest ∧ (∀ c ∈ q, c ≠ btick) := by
  cases cs with
  | nil => exact absurd h (by simp [lexNumber])
  | cons c cs' =>
    simp only [lexNumber] at h
    by_cases hd : (c.isDigit || c = '-') = true
    · rw [if_pos hd] at h
      refine ⟨(c :: cs').takeWhile isNumChar, ?_, ?_⟩
      · rw [show rest = (c :: cs').dropWhile isNumChar from by simpa using h.symm]
        exact (List.takeWhile_append_dropWhile isNumChar (c :: cs')).symm
      · intro x hx
        exact isNumChar_ne_btick (List.mem_takeWhile_imp hx)
    · rw [if_neg hd] at h
      exact absurd h (by simp)

/-- Everything the JSON recogniser consumes is a safe chunk: no
backtick at either edge and no newline-backtick adjacency.  Backticks
can occur only inside string literals, whose bodies contain no literal
newlines. -/
theorem jsonRun_spec : ∀ (f : Nat) (m : JMode) (cs rest : List Char),
    jsonRun f m cs = some rest → ∃ p, cs = p ++ rest ∧ safeChunk p = true := by
  intro f
  induction f with
  | zero => intro m cs rest h; exact Option.noConfusion h
  | succ f ih =>
    intro m cs rest h
    cases m with
    | value =>
      cases cs with
      | nil => exact Option.noConfusion h
      | cons c cs1 =>
        unfold jsonRun at h
        simp only [] at h
        by_cases h1 : c = '"'
        · rw [if_pos h1] at h
          obtain ⟨q, heq, hne, hlast, hmem⟩ :=
            lexStringBody_spec cs1.length cs1 rest (le_refl _) h
          refine ⟨c :: q, by simp [heq], ?_⟩
          rw [h1]
          exact string_chunk_safe q hmem hne hlast
        · rw [if_neg h1] at h
          by_cases h2 : c = '{'
          · rw [if_pos h2] at h
            cases hsw : skipWs cs1 with
            | nil => rw [hsw] at h; exact Option.noConfusion h
            | cons d cs2 =>
              rw [hsw] at h
              simp only [] at h
              have hs := skipWs_split cs1
              rw [hsw] at hs
              set w := cs1.takeWhile isJsonWs with hw
              by_cases hd : d = '}'
              · rw [if_pos hd] at h
                obtain rfl : cs2 = rest := by simpa using h
                refine ⟨c :: (w ++ [d]), ?_, ?_⟩
                · rw [hs]
                  simp [List.append_assoc]
                · rw [h2]
                  exact safeChunk_append ['{'] _ (by decide)
                    (safeChunk_append _ [d] (wsChunk_safe cs1) (by rw [hd]; decide))
              · rw [if_neg hd] at h
                obtain ⟨pm, heq, hsafe⟩ := ih .members _ rest h
                refine ⟨c :: (w ++ pm), ?_, ?_⟩
                · rw [hs, heq]
                  simp [List.append_assoc]
                · rw [h2]
                  exact safeChunk_append ['{'] _ (by decide)
                    (safeChunk_append _ pm (wsChunk_safe cs1) hsafe)
          · rw [if_neg h2] at h
            by_cases h3 : c = '['
            · rw [if_pos h3] at h
              cases hsw : skipWs cs1 with
              | nil => rw [hsw] at h; exact Option.noConfusion h
              | cons d cs2 =>
                rw [hsw] at h
                simp only [] at h
                have hs := skipWs_split cs1
                rw [hsw] at hs
                set w := cs1.takeWhile isJsonWs with hw
                by_cases hd : d = ']'
                · rw [if_pos hd] at h
                  obtain rfl : cs2 = rest := by simpa using h
                  refine ⟨c :: (w ++ [d]), ?_, ?_⟩
                  · rw [hs]
                    simp [List.append_assoc]
                  · rw [h3]
                    exact safeChunk_append ['['] _ (by decide)
                      (safeChunk_append _ [d] (wsChunk_safe cs1) (by rw [hd]; decide))
                · rw [if_neg hd] at h
                  obtain ⟨pe, heq, hsafe⟩ := ih .elements _ rest h
                  refine ⟨c :: (w ++ pe), ?_, ?_⟩
                  · rw [hs, heq]
                    simp [List.append_assoc]
                  · rw [h3]
                    exact safeChunk_append ['['] _ (by decide)
                      (safeChunk_append _ pe (wsChunk_safe cs1) hsafe)
            · rw [if_neg h3] at h
              by_cases h4 : c = 't'
              · rw [if_pos h4] at h
                by_cases htk : cs1.take 3 = "rue".data
                · rw [if_pos htk] at h
                  obtain rfl : cs1.drop 3 = rest := by simpa using h
                  refine ⟨c :: cs1.take 3, ?_, ?_⟩
                  · simp [List.take_append_drop]
                  · rw [h4, htk]
                    exact noTick_safe _ (by decide)
                · rw [if_neg htk] at h
                  exact Option.noConfusion h
              · rw [if_neg h4] at h
                by_cases h5 : c = 'f'
                · rw [if_pos h5] at h
                  by_cases htk : cs1.take 4 = "alse".data
                  · rw [if_pos htk] at h
                    obtain rfl : cs1.drop 4 = rest := by simpa using h
                    refine ⟨c :: cs1.take 4, ?_, ?_⟩
                    · simp [List.take_append_drop]
                    · rw [h5, htk]
                      exact noTick_safe _ (by decide)
                  · rw [if_neg htk] at h
                    exact Option.noConfusion h
                · rw [if_neg h5] at h
                  by_cases h6 : c = 'n'
                  · rw [if_pos h6] at h
                    by_cases htk : cs1.take 3 = "ull".data
                    · rw [if_pos htk] at h
                      obtain rfl : cs1.drop 3 = rest := by simpa using h
                      refine ⟨c :: cs1.take 3, ?_, ?_⟩
                      · simp [List.take_append_drop]
                      · rw [h6, htk]
                        exact noTick_safe _ (by decide)
                    · rw [if_neg htk] at h
                      exact Option.noConfusion h
                  · rw [if_neg h6] at h
                    obtain ⟨q, heq, hmem⟩ := lexNumber_spec _ rest h
                    exact ⟨q, heq, noTick_safe q hmem⟩
    | members =>
      cases cs with
      | nil => exact Option.noConfusion h
      | cons c cs1 =>
        unfold jsonRun at h
        simp only [] at h
        by_cases h1 : c = '"'
        · rw [if_pos h1] at h
          cases hls : lexStringBody cs1 with
          | none => rw [hls] at h; simp only [] at h; exact Option.noConfusion h
          | some cs2 =>
            rw [hls] at h
            simp only [] at h
            obtain ⟨q, heqq, hneq, hlastq, hmemq⟩ :=
              lexStringBody_spec cs1.length cs1 cs2 (le_refl _) hls
            cases hsw2 : skipWs cs2 with
            | nil => rw [hsw2] at h; simp only [] at h; exact Option.noConfusion h
            | cons d cs3 =>
              rw [hsw2] at h
              simp only [] at h
              have e2 := skipWs_split cs2
              rw [hsw2] at e2
              set w2 := cs2.takeWhile isJsonWs with hw2
              by_cases hd : d = ':'
              · rw [if_pos hd] at h
                cases hjv : jsonRun f .value (skipWs cs3) with
                | none => rw [hjv] at h; simp only [] at h; exact Option.noConfusion h
                | some cs4 =>
                  rw [hjv] at h
                  simp only [] at h
                  obtain ⟨pv, heqv, hsafev⟩ := ih .value (skipWs cs3) cs4 hjv
                  have e3 := skipWs_split cs3
                  set w3 := cs3.takeWhile isJsonWs with hw3
                  cases hsw4 : skipWs cs4 with
                  | nil => rw [hsw4] at h; simp only [] at h; exact Option.noConfusion h
                  | cons e cs5 =>
                    rw [hsw4] at h
                    simp only [] at h
                    have e4 := skipWs_split cs4
                    rw [hsw4] at e4
                    set w4 := cs4.takeWhile isJsonWs with hw4
                    by_cases he : e = ','
                    · rw [if_pos he] at h
                      obtain ⟨pm, heqm, hsafem⟩ := ih .members (skipWs cs5) rest h
                      have e5 := skipWs_split cs5
                      set w5 := cs5.takeWhile isJsonWs with hw5
                      refine ⟨'"' :: q ++ w2 ++ [d] ++ w3 ++ pv ++ w4 ++
                        [e] ++ w5 ++ pm, ?_, ?_⟩
                      · rw [h1, heqq, e2, e3, heqv, e4, e5, heqm]
                        simp [List.append_assoc]
                      · refine safeChunk_append _ pm ?_ hsafem
                        refine safeChunk_append _ _ ?_ (wsChunk_safe cs5)
                        refine safeChunk_append _ [e] ?_ (by rw [he]; decide)
                        refine safeChunk_append _ _ ?_ (wsChunk_safe cs4)
                        refine safeChunk_append _ pv ?_ hsafev
                        refine safeChunk_append _ _ ?_ (wsChunk_safe cs3)
                        refine safeChunk_append _ [d] ?_ (by rw [hd]; decide)
                        refine safeChunk_append _ _ ?_ (wsChunk_safe cs2)
                        exact string_chunk_safe q hmemq hneq hlastq
                    · rw [if_neg he] at h
                      by_cases he2 : e = '}'
                      · rw [if_pos he2] at h
                        obtain rfl : cs5 = rest := by simpa using h
                        refine ⟨'"' :: q ++ w2 ++ [d] ++ w3 ++ pv ++ w4 ++
                          [e], ?_, ?_⟩
                        · rw [h1, heqq, e2, e3, heqv, e4]
                          simp [List.append_assoc]
                        · refine safeChunk_append _ [e] ?_ (by rw [he2]; decide)
                          refine safeChunk_append _ _ ?_ (wsChunk_safe cs4)
                          refine safeChunk_append _ pv ?_ hsafev
                          refine safeChunk_append _ _ ?_ (wsChunk_safe cs3)
                          refine safeChunk_append _ [d] ?_ (by rw [hd]; decide)
                          refine safeChunk_append _ _ ?_ (wsChunk_safe cs2)
                          exact string_chunk_safe q hmemq hneq hlastq
                      · rw [if_neg he2] at h
                        exact Option.noConfusion h
              · rw [if_neg hd] at h
                exact Option.noConfusion h
        · rw [if_neg h1] at h
          exact Option.noConfusion h
    | elements =>
      unfold jsonRun at h
      cases hjv : jsonRun f .value cs with
      | none => rw [hjv] at h; simp only [] at h; exact Option.noConfusion h
      | some cs2 =>
        rw [hjv] at h
        simp only [] at h
        obtain ⟨pv, heqv, hsafev⟩ := ih .value cs cs2 hjv
        cases hsw2 : skipWs cs2 with
        | nil => rw [hsw2] at h; simp only [] at h; exact Option.noConfusion h
        | cons e cs3 =>
          rw [hsw2] at h
          simp only [] at h
          have e2 := skipWs_split cs2
          rw [hsw2] at e2
          set w2 := cs2.takeWhile isJsonWs with hw2
          by_cases he : e = ','
          · rw [if_pos he] at h
            obtain ⟨pe, heqe, hsafee⟩ := ih .elements (skipWs cs3) rest h
            have e3 := skipWs_split cs3
            set w3 := cs3.takeWhile isJsonWs with hw3
            refine ⟨pv ++ w2 ++ [e] ++ w3 ++ pe, ?_, ?_⟩
            · rw [heqv, e2, e3, heqe]
              simp [List.append_assoc]
            · refine safeChunk_append _ pe ?_ hsafee
              refine safeChunk_append _ _ ?_ (wsChunk_safe cs3)
              refine safeChunk_append _ [e] ?_ (by rw [he]; decide)
              exact safeChunk_append _ _ hsafev (wsChunk_safe cs2)
          · rw [if_neg he] at h
            by_cases he2 : e = ']'
            · rw [if_pos he2] at h
              obtain rfl : cs3 = rest := by simpa using h
              refine ⟨pv ++ w2 ++ [e], ?_, ?_⟩
              · rw [heqv, e2]
                simp [List.append_assoc]
              · refine safeChunk_append _ [e] ?_ (by rw [he2]; decide)
                exact safeChunk_append _ _ hsafev (wsChunk_safe cs2)
            · rw [if_neg he2] at h
              exact Option.noConfusion h

theorem getLast?_cons_isSome (x : Char) (xs : List Char) :
    ∃ a, (x :: xs).getLast? = some a := by
  induction xs generalizing x with
  | nil => exact ⟨x, rfl⟩
  | cons y ys ih =>
    rw [List.getLast?_cons_cons]
    exact ih y

/-- A stripped valid JSON text is a nonempty safe chunk. -/
theorem validJson_safe (j : String) (hv : validJson j = true)
    (hs : pyStrip j = j) :
    safeChunk j.data = true ∧ j.data ≠ [] := by
  have hstrip := pyStrip_eq_self_data j hs
  obtain ⟨hhead, hlast⟩ := pyStripList_self_facts _ hstrip
  have hskip : skipWs j.data = j.data := by
    cases hd : j.data with
    | nil => rfl
    | cons c t =>
      have hc : isPySpace c = false := hhead c (by rw [hd]; rfl)
      have hjw : isJsonWs c = false := by
        cases hx : isJsonWs c with
        | false => rfl
        | true => rw [jsonWs_isPySpace hx] at hc; exact absurd hc (by simp)
      exact dropWhile_cons_false _ _ _ hjw
  unfold validJson at hv
  rw [hskip] at hv
  simp only [] at hv
  cases hrun : jsonRun (j.data.length + 1) .value j.data with
  | none => rw [hrun] at hv; exact absurd hv (by simp)
  | some rest =>
    rw [hrun] at hv
    simp only [] at hv
    obtain ⟨p, heq, hsafe⟩ := jsonRun_spec _ .value _ rest hrun
    have hrest : rest = [] := by
      cases hre : rest with
      | nil => rfl
      | cons x xs =>
        obtain ⟨a, ha⟩ : ∃ a, rest.getLast? = some a := by
          rw [hre]
          exact getLast?_cons_isSome x xs
        have hmem : a ∈ rest := getLast?_mem_list rest a ha
        have hws : isJsonWs a = true := by
          have := List.all_eq_true.mp hv a hmem
          simpa using this
        have hpw : isPySpace a = false := by
          refine hlast a ?_
          rw [heq, List.getLast?_append_of_ne_nil p (by rw [hre]; simp)]
          exact ha
        rw [jsonWs_isPySpace hws] at hpw
        exact absurd hpw (by simp)
    subst hrest
    rw [List.append_nil] at heq
    refine ⟨by rw [heq]; exact hsafe, ?_⟩
    intro hnil
    rw [hnil] at hrun
    have h0 : jsonRun ((List.length ([] : List Char)) + 1) JMode.value [] = none := rfl
    rw [h0] at hrun
    exact Option.noConfusion hrun

/-- The scan of the regex substitution over a whitespace-tolerant
lowercase-fenced wrapping of a safe stripped chunk returns exactly the
chunk. -/
theorem reSub_wrapped (j A B : List Char)
    (hA : ∀ c ∈ A, isPySpace c = true) (hB : ∀ c ∈ B, isPySpace c = true)
    (hsafe : safeChunk j = true) (hne : j ≠ [])
    (hhead : ∀ c, j.head? = some c → isPySpace c = false)
    (hlast : ∀ c, j.getLast? = some c → isPySpace c = false)
    (f : Nat)
    (hf : ("```json".data ++ (A ++ (j ++ (B ++ "```".data)))).length ≤ f) :
    reSubFuel f true ("```json".data ++ (A ++ (j ++ (B ++ "```".data)))) = j := by
  simp only [safeChunk, Bool.and_eq_true, bne_iff_ne, ne_eq] at hsafe
  obtain ⟨⟨hpairs, hheadt⟩, hlastt⟩ := hsafe
  have hlen7 : ("```json".data).length = 7 := rfl
  have htake : ("```json".data ++ (A ++ (j ++ (B ++ "```".data)))).take 7 =
      "```json".data := by
    rw [← hlen7, List.take_left]
  have hdrop7 : ("```json".data ++ (A ++ (j ++ (B ++ "```".data)))).drop 7 =
      A ++ (j ++ (B ++ "```".data)) := by
    rw [← hlen7, List.drop_left]
  have hjdrop : (j ++ (B ++ "```".data)).dropWhile isPySpace =
      j ++ (B ++ "```".data) := by
    cases j with
    | nil => exact absurd rfl hne
    | cons c j' =>
      rw [List.cons_append]
      exact dropWhile_cons_false _ _ _ (hhead c rfl)
  have hm1x : matchAlt1 true ("```json".data ++ (A ++ (j ++ (B ++ "```".data)))) =
      some (((("```json".data ++ (A ++ (j ++ (B ++ "```".data)))).drop 7).takeWhile
          isPySpace).getLast? == some '\n',
        j ++ (B ++ "```".data)) := by
    unfold matchAlt1
    rw [if_pos (⟨rfl, htake⟩ : true = true ∧ _)]
    rw [hdrop7, dropWhile_all_append _ _ _ hA, hjdrop]
  obtain ⟨b0, hm1⟩ : ∃ b0,
      matchAlt1 true ("```json".data ++ (A ++ (j ++ (B ++ "```".data)))) =
        some (b0, j ++ (B ++ "```".data)) := ⟨_, hm1x⟩
  obtain ⟨f', rfl⟩ : ∃ f', f = f' + 1 := by
    refine ⟨f - 1, ?_⟩
    rw [fence7_data] at hf
    simp only [List.cons_append, List.length_cons] at hf
    omega
  have hL : "```json".data ++ (A ++ (j ++ (B ++ "```".data))) =
      btick :: (btick :: btick :: 'j' :: 's' :: 'o' :: 'n' :: [] ++
        (A ++ (j ++ (B ++ "```".data)))) := by
    rw [fence7_data]
    simp [List.cons_append]
  rw [hL] at hm1 hf ⊢
  rw [reSubFuel_step_alt1 f' true b0 _ _ _ hm1]
  have hfuel : (j ++ (B ++ "```".data)).length ≤ f' := by
    simp only [List.cons_append, List.length_cons, List.length_append] at hf ⊢
    omega
  have hlastok : ∀ c, j.getLast? = some c → isPySpace c = false ∧ c ≠ btick := by
    intro c hc
    refine ⟨hlast c hc, ?_⟩
    intro hcb
    exact hlastt (by rw [hc, hcb])
  have hheadok : j.head? = some btick → b0 = false := fun hb => absurd hb hheadt
  rw [reSub_scan (B ++ "```".data) []
    (fun f s hfs => reSub_tail B hB f s hfs)
    j f' b0 hfuel hpairs hlastok hheadok, List.append_nil]

/-- Lines 126-127 as one function of the input text. -/
theorem processedModelText_eq (s : String) :
    processedModelText s =
      String.mk (reSubFuel (pyStripList s.data).length true (pyStripList s.data)) :=
  rfl

/-- Counterexample for C6 as stated.  The substitution pattern requires
the lowercase tag `json`: an uppercase fence `` ```JSON `` is not
stripped (only the trailing fence is), so the processed text is not
valid JSON, while the unwrapped text parses - the two do not yield the
same parsed object. -/
theorem fence_case_counterexample :
    validJson "\x7b\x7d" = true ∧
    processedModelText "\x7b\x7d" = "\x7b\x7d" ∧
    processedModelText "```JSON\n\x7b\x7d\n```" = "```JSON\n\x7b\x7d" ∧
    validJson (processedModelText "```JSON\n\x7b\x7d\n```") = false :=
  ⟨by decide, by decide, by decide, by decide⟩

/-- C6 as amended.  For every valid JSON text `j` (in stripped form)
and every code-fence wrapping with the lowercase `` ```json `` opening
tag - whitespace before and inside the fences is tolerated - the
stripping of lines 126-127 recovers exactly the text of `j`, so
`json.loads` receives the same text as for the unwrapped input and
yields the same parsed object. -/
theorem fence_strip_equiv (j A B C D : String)
    (hvalid : validJson j = true)
    (hstrip : pyStrip j = j)
    (hA : ∀ c ∈ A.data, isPySpace c = true)
    (hB : ∀ c ∈ B.data, isPySpace c = true)
    (hC : ∀ c ∈ C.data, isPySpace c = true)
    (hD : ∀ c ∈ D.data, isPySpace c = true) :
    processedModelText (C ++ "```json" ++ A ++ j ++ B ++ "```" ++ D) =
      processedModelText j := by
  obtain ⟨hsafe, hne⟩ := validJson_safe j hvalid hstrip
  obtain ⟨hhead, hlast⟩ := pyStripList_self_facts _ (pyStrip_eq_self_data j hstrip)
  have hsafe' := hsafe
  simp only [safeChunk, Bool.and_eq_true, bne_iff_ne, ne_eq] at hsafe'
  obtain ⟨⟨hpairs, hheadt⟩, hlastt⟩ := hsafe'
  have hdata : (C ++ "```json" ++ A ++ j ++ B ++ "```" ++ D).data =
      C.data ++ ("```json".data ++ (A.data ++ (j.data ++
        (B.data ++ "```".data)))) ++ D.data := by
    simp [str_data_append, List.append_assoc]
  have hf3last : ("```".data).getLast? = some btick := by decide
  have hlast_core : ("```json".data ++ (A.data ++ (j.data ++
      (B.data ++ "```".data)))).getLast? = some btick := by
    rw [List.getLast?_append_of_ne_nil _ (by
      intro hx
      have := congrArg List.length hx
      simp [fence3_data] at this)]
    rw [List.getLast?_append_of_ne_nil _ (by
      intro hx
      have := congrArg List.length hx
      simp [fence3_data] at this)]
    rw [List.getLast?_append_of_ne_nil _ (by
      intro hx
      have := congrArg List.length hx
      simp [fence3_data] at this)]
    rw [List.getLast?_append_of_ne_nil _ (by rw [fence3_data]; simp)]
    exact hf3last
  have hstrip2 : pyStripList ((C ++ "```json" ++ A ++ j ++ B ++ "```" ++ D).data) =
      "```json".data ++ (A.data ++ (j.data ++ (B.data ++ "```".data))) := by
    rw [hdata]
    refine pyStripList_concat C.data _ D.data hC hD ?_ ?_ ?_
    · intro c hc
      have hcb : c = btick := by
        rw [fence7_data] at hc
        exact (by simpa using hc : btick = c).symm
      rw [hcb]
      exact isPySpace_btick
    · intro c hc
      rw [hlast_core] at hc
      have hcb : c = btick := (by simpa using hc : btick = c).symm
      rw [hcb]
      exact isPySpace_btick
    · rw [fence7_data]; simp
  have hcore_run : reSubFuel ("```json".data ++ (A.data ++ (j.data ++
      (B.data ++ "```".data)))).length true
      ("```json".data ++ (A.data ++ (j.data ++ (B.data ++ "```".data)))) =
      j.data :=
    reSub_wrapped j.data A.data B.data hA hB hsafe hne hhead hlast _ (le_refl _)
  have hj_run : reSubFuel (j.data).length true j.data = j.data := by
    have hlastok : ∀ c, j.data.getLast? = some c →
        isPySpace c = false ∧ c ≠ btick := by
      intro c hc
      refine ⟨hlast c hc, ?_⟩
      intro hcb
      exact hlastt (by rw [hc, hcb])
    have hheadok : j.data.head? = some btick → true = false :=
      fun hb => absurd hb hheadt
    have := reSub_scan [] [] (fun f s _ => reSubFuel_nil f s) j.data
      j.data.length true (by simp) hpairs hlastok hheadok
    simpa using this
  rw [processedModelText_eq, processedModelText_eq j, hstrip2,
    pyStrip_eq_self_data j hstrip, hcore_run, hj_run]

/-- Witness for C6's amended statement on a concrete fenced wrapping. -/
theorem fence_strip_equiv_witness :
    validJson "\x7b\"a\": 1\x7d" = true ∧
    pyStrip "\x7b\"a\": 1\x7d" = "\x7b\"a\": 1\x7d" ∧
    processedModelText
        ("" ++ "```json" ++ "\n" ++ "\x7b\"a\": 1\x7d" ++ "\n" ++ "```" ++ "") =
      processedModelText "\x7b\"a\": 1\x7d" :=
  ⟨by decide, by decide,
    fence_strip_equiv "\x7b\"a\": 1\x7d" "\n" "\n" "" "" (by decide) (by decide)
      (by decide) (by decide) (by decide) (by decide)⟩
